import Mathlib

/-!
# A shallow embedding of the `crtz` dialogue-language interpreter

This file models the interpreter found in `src/.backup/crtz_lang.cpp` (the
later, more complete of the two interpreter variants in the repository: it is
the one with the `else goto` branch, multi-string `show`, and boolean
variables, which the specification treats as authoritative).  C++
`unordered_map`s are modelled as association lists (first binding wins on
lookup, update-in-place on write, append on insert — iteration order of the
C++ maps never matters for the modelled code paths: each loop touches each
key at most once).  C++ `long long` values are modelled as unbounded `Int`
(their overflow is undefined behaviour in the source); the one place a value
is truncated to a 32-bit `int` with defined/observed wrap-around semantics —
the `(int)` cast on the result of `evalRPN` — is modelled explicitly by
`toInt32`.  A C++ exception escaping (the un-guarded `stoll` in `evalRPN`
throws `std::out_of_range` on numerals beyond the signed 64-bit range) is
modelled by `Option`: `none` means the run aborts with an exception.
-/

namespace Crtz

/-- Association-list lookup, first binding wins (models `unordered_map`
lookup; the modelled maps never hold duplicate keys). -/
def lookupM {α : Type} : List (String × α) → String → Option α
  | [], _ => none
  | (k, v) :: rest, key => if k = key then some v else lookupM rest key

/-- Association-list update-or-append (models `m[key] = v` on an
`unordered_map`). -/
def insertM {α : Type} : List (String × α) → String → α → List (String × α)
  | [], key, v => [(key, v)]
  | (k, w) :: rest, key, v =>
    if k = key then (k, v) :: rest else (k, w) :: insertM rest key v

/-- Models `m.count(key)` on an `unordered_map` (0/1 as a `Bool`). -/
def hasM {α : Type} (m : List (String × α)) (key : String) : Bool :=
  (lookupM m key).isSome

/-- Integer-variable table (`unordered_map<string,int>`). -/
abbrev IntMap := List (String × Int)
/-- Boolean-variable table (`unordered_map<string,bool>`). -/
abbrev BoolMap := List (String × Bool)
/-- One object's field table (`unordered_map<string,int>`). -/
abbrev Fields := List (String × Int)
/-- Object table (`unordered_map<string, unordered_map<string,int>>`). -/
abbrev ObjMap := List (String × Fields)

/-- Models `objects[inst][field] = val`: `operator[]` creates an empty field
map for a missing instance before assigning the field. -/
def osetField (objs : ObjMap) (inst field : String) (v : Int) : ObjMap :=
  match lookupM objs inst with
  | some flds => insertM objs inst (insertM flds field v)
  | none => insertM objs inst [(field, v)]

/-- The `(int)` cast applied by `evalRPN` to its `long long` result:
two's-complement wrap-around into `[-2^31, 2^31)`. -/
def toInt32 (v : Int) : Int := (v + 2147483648) % 4294967296 - 2147483648

-- ------------------------ Expression engine ------------------------

/-- `precedence` from the source: comparisons 1, additive 2,
multiplicative 3, everything else 0. -/
def precedence (op : String) : Nat :=
  if op = "==" ∨ op = "!=" ∨ op = "<" ∨ op = "<=" ∨ op = ">" ∨ op = ">=" then 1
  else if op = "+" ∨ op = "-" then 2
  else if op = "*" ∨ op = "/" then 3
  else 0

/-- `isOperator` from the source. -/
def isOperator (s : String) : Bool :=
  s = "+" ∨ s = "-" ∨ s = "*" ∨ s = "/" ∨ s = "==" ∨ s = "!=" ∨
  s = "<" ∨ s = "<=" ∨ s = ">" ∨ s = ">="

/-- The characters matched by `strchr("+-*/()<>", c)` in `tokenizeExpr`. -/
def isExprSym (c : Char) : Bool :=
  c = '+' ∨ c = '-' ∨ c = '*' ∨ c = '/' ∨ c = '(' ∨ c = ')' ∨ c = '<' ∨ c = '>'

/-- C `isspace` on the ASCII characters the scripts can contain. -/
def cIsSpace (c : Char) : Bool :=
  c = ' ' ∨ c = '\t' ∨ c = '\n' ∨ c = '\x0b' ∨ c = '\x0c' ∨ c = '\r'

/-- Identifier-continuation test from `tokenizeExpr`:
`isalnum || '_' || '.'` (the dot makes `a.b` one token). -/
def isIdentCont (c : Char) : Bool := c.isAlphanum ∨ c = '_' ∨ c = '.'

/-- The loop body of the expression tokenizer, made structurally recursive
on a fuel argument so that it computes by kernel reduction (every loop
iteration consumes at least one character, so `fuel = length` always
suffices; `tokGo_fuel_irrelevant` below shows the fuel never matters).
Branch order follows the source exactly: whitespace skip, two-character
comparison operators, single characters of `"+-*/()<>"` (note this catches
`-` and `+` before the negative-literal branch below, so that branch can
only fire for a leading digit), integer literals, identifiers (dot-aware),
and silently skipping any other character. -/
def tokGo : Nat → List Char → List String
  | _, [] => []
  | 0, _ :: _ => []
  | fuel + 1, c :: cs =>
    if cIsSpace c then tokGo fuel cs
    else
      match cs with
      | c2 :: cs2 =>
        if (c = '<' ∧ c2 = '=') ∨ (c = '>' ∧ c2 = '=') ∨
           (c = '=' ∧ c2 = '=') ∨ (c = '!' ∧ c2 = '=') then
          String.mk [c, c2] :: tokGo fuel cs2
        else if isExprSym c then
          String.mk [c] :: tokGo fuel (c2 :: cs2)
        else if c.isDigit ∨ ((c = '-' ∨ c = '+') ∧ c2.isDigit) then
          String.mk (c :: (c2 :: cs2).takeWhile Char.isDigit) ::
            tokGo fuel ((c2 :: cs2).dropWhile Char.isDigit)
        else if c.isAlpha ∨ c = '_' then
          String.mk (c :: (c2 :: cs2).takeWhile isIdentCont) ::
            tokGo fuel ((c2 :: cs2).dropWhile isIdentCont)
        else tokGo fuel (c2 :: cs2)
      | [] =>
        if isExprSym c then [String.mk [c]]
        else if c.isDigit then [String.mk [c]]
        else if c.isAlpha ∨ c = '_' then [String.mk [c]]
        else []

/-- The expression tokenizer `tokenizeExpr`, on the character list of the
input string. -/
def tokenizeExpr (cs : List Char) : List String := tokGo cs.length cs

/-- The inner pop loop run by `infixToRPN` when an operator arrives: pop
while the stack top is an operator of precedence `≥ p`.  Returns the popped
operators (in pop order) and the remaining stack. -/
def popGE (p : Nat) : List String → List String × List String
  | [] => ([], [])
  | x :: xs =>
    if isOperator x ∧ precedence x ≥ p then
      let r := popGE p xs
      (x :: r.1, r.2)
    else ([], x :: xs)

/-- The inner pop loop run by `infixToRPN` at a `)`: pop until the stack is
empty or a `"("` is on top. -/
def popToParen : List String → List String × List String
  | [] => ([], [])
  | x :: xs =>
    if x = "(" then ([], x :: xs)
    else
      let r := popToParen xs
      (x :: r.1, r.2)

/-- After the `)`-pop loop: drop the `"("` from the stack top if one is
there (`if (!st.empty() && st.back() == "(") st.pop_back();`). -/
def dropLParen : List String → List String
  | [] => []
  | x :: rest => if x = "(" then rest else x :: rest

/-- The main loop of `infixToRPN` (shunting-yard).  The operator stack is a
Lean list with its head as the C++ `vector`'s back; the final case appends
the remaining stack to the output exactly as the final `while` of the
source does (top first). -/
def shunt : List String → List String → List String → List String
  | [], st, out => out ++ st
  | t :: ts, st, out =>
    if t = "" then shunt ts st out
    else if isOperator t then
      shunt ts (t :: (popGE (precedence t) st).2) (out ++ (popGE (precedence t) st).1)
    else if t = "(" then shunt ts (t :: st) out
    else if t = ")" then
      shunt ts (dropLParen (popToParen st).2) (out ++ (popToParen st).1)
    else shunt ts st (out ++ [t])

/-- `infixToRPN` from the source. -/
def infixToRPN (tokens : List String) : List String := shunt tokens [] []

/-- First index at which `p` holds (`string::find`, `none` for `npos`). -/
def findIdxM (p : Char → Bool) : List Char → Option Nat
  | [] => none
  | c :: cs => if p c then some 0 else (findIdxM p cs).map (· + 1)

/-- `splitDot` from the source: split at the first `.`; no dot gives an
empty second component. -/
def splitDot (s : String) : String × String :=
  match findIdxM (fun c => c = '.') s.data with
  | none => (s, "")
  | some i => (String.mk (s.data.take i), String.mk (s.data.drop (i + 1)))

/-- Numeric value of a digit character run (what `stoll` computes on the
digits it consumes). -/
def digitsVal (ds : List Char) : Nat :=
  ds.foldl (fun acc c => acc * 10 + (c.toNat - 48)) 0

/-- Digit-run parse shared by the signed and unsigned cases of `stollM`:
consume the maximal run of leading digits; no digit at all throws
`std::invalid_argument`, a value outside the signed 64-bit range throws
`std::out_of_range` (both modelled by `none`). -/
def stollCore (neg : Bool) (cs : List Char) : Option Int :=
  let ds := cs.takeWhile Char.isDigit
  if ds = [] then none
  else if neg then
    if digitsVal ds ≤ 9223372036854775808 then some (-(digitsVal ds : Int))
    else none
  else
    if digitsVal ds ≤ 9223372036854775807 then some ((digitsVal ds : Int))
    else none

/-- Model of the un-guarded `std::stoll` call in `evalRPN`: an optional
sign followed by the maximal run of leading digits; `none` models a thrown
exception.  (The call site guarantees the argument starts with a digit, or
with `+`/`-` followed by a digit.) -/
def stollM (t : String) : Option Int :=
  match t.data with
  | [] => none
  | c :: rest =>
    if c = '-' then stollCore true rest
    else if c = '+' then stollCore false rest
    else stollCore false (c :: rest)

/-- The `t[0]`-based numeral test of `evalRPN`:
`isdigit(t[0]) || ((t[0]=='-'||t[0]=='+') && t.size()>1 && isdigit(t[1]))`. -/
def isNumericTok (t : String) : Bool :=
  match t.data with
  | [] => false
  | c :: rest =>
    c.isDigit ∨ ((c = '-' ∨ c = '+') ∧ (rest.head?.map Char.isDigit).getD false)

/-- One binary operator application of `evalRPN` (`a` below `b` on the
stack; `r` starts at 0 and the `if` chain mirrors the source, including
truncating division and division by zero yielding 0). -/
def applyOp (t : String) (a b : Int) : Int :=
  if t = "+" then a + b
  else if t = "-" then a - b
  else if t = "*" then a * b
  else if t = "/" then (if b ≠ 0 then Int.tdiv a b else 0)
  else if t = "==" then (if a = b then 1 else 0)
  else if t = "!=" then (if a ≠ b then 1 else 0)
  else if t = "<" then (if a < b then 1 else 0)
  else if t = "<=" then (if a ≤ b then 1 else 0)
  else if t = ">" then (if b < a then 1 else 0)
  else if t = ">=" then (if b ≤ a then 1 else 0)
  else 0

/-- Identifier resolution of `evalRPN`: dotted tokens read an object field
(absent object or field gives 0); bare tokens read the boolean table first,
then the integer table (absent name gives 0). -/
def identValue (vars : IntMap) (boolVars : BoolMap) (objects : ObjMap)
    (t : String) : Int :=
  let pr := splitDot t
  if pr.2 ≠ "" then
    match lookupM objects pr.1 with
    | some flds => (lookupM flds pr.2).getD 0
    | none => 0
  else
    match lookupM boolVars t with
    | some b => if b then 1 else 0
    | none => (lookupM vars t).getD 0

/-- The loop of `evalRPN` over the postfix token list; the stack head is
the top.  An operator finding fewer than two operands makes the whole
evaluation return 0 at once (`return 0;` in the source); a numeral beyond
`stoll`'s range aborts with an exception (`none`). -/
def evalRPNGo (vars : IntMap) (boolVars : BoolMap) (objects : ObjMap) :
    List String → List Int → Option Int
  | [], st =>
    match st with
    | [] => some 0
    | v :: _ => some (toInt32 v)
  | t :: ts, st =>
    if isOperator t then
      match st with
      | b :: a :: st' => evalRPNGo vars boolVars objects ts (applyOp t a b :: st')
      | _ => some 0
    else if isNumericTok t then
      match stollM t with
      | some v => evalRPNGo vars boolVars objects ts (v :: st)
      | none => none
    else if t = "true" then evalRPNGo vars boolVars objects ts (1 :: st)
    else if t = "false" then evalRPNGo vars boolVars objects ts (0 :: st)
    else evalRPNGo vars boolVars objects ts (identValue vars boolVars objects t :: st)

/-- `evalRPN` from the source: run the loop with an empty stack; an empty
final stack yields 0, otherwise the stack top is returned through the
`(int)` cast. -/
def evalRPN (rpn : List String) (vars : IntMap) (boolVars : BoolMap)
    (objects : ObjMap) : Option Int :=
  evalRPNGo vars boolVars objects rpn []

/-- `evalExpressionString` from the source: tokenize, convert to postfix,
evaluate. -/
def evalExpressionString (expr : String) (vars : IntMap) (boolVars : BoolMap)
    (objects : ObjMap) : Option Int :=
  evalRPN (infixToRPN (tokenizeExpr expr.data)) vars boolVars objects

-- ------------------ Reference semantics for claim C2 ------------------

/-- The binary operators of the expression language. -/
inductive BOp | add | sub | mul | div | beq | bne | blt | ble | bgt | bge
deriving DecidableEq

/-- Source text of each operator. -/
def opStr : BOp → String
  | .add => "+" | .sub => "-" | .mul => "*" | .div => "/"
  | .beq => "==" | .bne => "!=" | .blt => "<" | .ble => "<=" | .bgt => ">" | .bge => ">="

/-- The precedence tier of each operator, as stated by the specification:
comparisons 1, additive 2, multiplicative 3. -/
def precOp : BOp → Nat
  | .add | .sub => 2
  | .mul | .div => 3
  | _ => 1

/-- Reference meaning of one operator on mathematical integers, exactly as
the claim describes it: standard `+ - *`, truncating division with division
by zero yielding 0, comparisons yielding 1/0. -/
def opDenote : BOp → Int → Int → Int
  | .add, a, b => a + b
  | .sub, a, b => a - b
  | .mul, a, b => a * b
  | .div, a, b => if b ≠ 0 then Int.tdiv a b else 0
  | .beq, a, b => if a = b then 1 else 0
  | .bne, a, b => if a ≠ b then 1 else 0
  | .blt, a, b => if a < b then 1 else 0
  | .ble, a, b => if a ≤ b then 1 else 0
  | .bgt, a, b => if b < a then 1 else 0
  | .bge, a, b => if b ≤ a then 1 else 0

/-- Well-formed expressions built only from (non-negative) integer
literals, parentheses and the binary operators — the claim's universe of
expressions, identified with their abstract syntax trees.  Parenthesisation
is reintroduced by the unparser `renderToks`. -/
inductive Expr
  | num (n : Nat)
  | bin (o : BOp) (l r : Expr)

/-- The claim's reference value of an expression: standard integer
arithmetic with the stated division and comparison conventions.  Precedence
and left-to-right association are captured by the tree structure; the
unparser below renders each tree as exactly the token string that the
standard precedence/associativity reading parses back to that tree. -/
def evalE : Expr → Int
  | .num n => (n : Int)
  | .bin o l r => opDenote o (evalE l) (evalE r)

/-- Decimal digits of a natural number (most significant first). -/
def natDigits (n : Nat) : List Char :=
  if h : n < 10 then [Char.ofNat (48 + n)]
  else natDigits (n / 10) ++ [Char.ofNat (48 + n % 10)]
decreasing_by exact Nat.div_lt_self (by omega) (by omega)

/-- Decimal rendering of a natural-number literal. -/
def natStr (n : Nat) : String := String.mk (natDigits n)

/-- Postfix (RPN) form of an expression. -/
def rpnOf : Expr → List String
  | .num n => [natStr n]
  | .bin o l r => rpnOf l ++ rpnOf r ++ [opStr o]

/-- The standard minimal-parenthesisation unparser: render `e` in a context
that accepts operators of precedence `≥ lvl`; a looser operator is wrapped
in parentheses.  The left operand is rendered at the operator's own tier
and the right operand one tier higher, so the rendered string reads back,
under precedence with left-to-right association inside each tier, as
exactly `e`. -/
def renderToks : Expr → Nat → List String
  | .num n, _ => [natStr n]
  | .bin o l r, lvl =>
    let core := renderToks l (precOp o) ++ opStr o :: renderToks r (precOp o + 1)
    if precOp o < lvl then "(" :: (core ++ [")"]) else core

/-- Render a token list as text, each token followed by one space. -/
def renderChars : List String → List Char
  | [] => []
  | t :: ts => t.data ++ ' ' :: renderChars ts

/-- The expression string denoted by an expression tree. -/
def renderStr (e : Expr) : String := String.mk (renderChars (renderToks e 1))

/-- Output tokens already emitted by the shunting-yard conversion after
consuming `renderToks e lvl` (the rest of `rpnOf e` is still pending on
the operator stack). -/
def doneOut : Expr → Nat → List String
  | .num n, _ => [natStr n]
  | .bin o l r, lvl =>
    if precOp o < lvl then rpnOf (.bin o l r)
    else rpnOf l ++ doneOut r (precOp o + 1)

/-- Operators left pending on the shunting-yard stack (top first) after
consuming `renderToks e lvl`. -/
def pendOps : Expr → Nat → List String
  | .num _, _ => []
  | .bin o _ r, lvl =>
    if precOp o < lvl then []
    else pendOps r (precOp o + 1) ++ [opStr o]

/-- All literals parse within `stoll`'s signed 64-bit range and every
subterm's value stays within `long long`, the defined-behaviour fragment of
the C++ evaluator. -/
def Bounded : Expr → Prop
  | .num n => (n : Int) ≤ 9223372036854775807
  | .bin o l r => Bounded l ∧ Bounded r ∧
      -9223372036854775808 ≤ evalE (.bin o l r) ∧
      evalE (.bin o l r) ≤ 9223372036854775807

def boundedDec : (e : Expr) → Decidable (Bounded e)
  | .num n =>
    decidable_of_iff ((n : Int) ≤ 9223372036854775807) (by simp [Bounded])
  | .bin o l r =>
    have hl : Decidable (Bounded l) := boundedDec l
    have hr : Decidable (Bounded r) := boundedDec r
    decidable_of_iff (Bounded l ∧ Bounded r ∧
      -9223372036854775808 ≤ evalE (.bin o l r) ∧
      evalE (.bin o l r) ≤ 9223372036854775807) (by simp [Bounded])

instance : DecidablePred Bounded := boundedDec

/-- The token shapes produced by rendering an expression: parentheses,
operators, and non-empty digit strings. -/
def GoodTok (t : String) : Prop :=
  t = "(" ∨ t = ")" ∨ isOperator t = true ∨
  (t.data ≠ [] ∧ ∀ c ∈ t.data, c.isDigit)

/-- Invariant on the shunting-yard operator stack: the top (if any) is an
open parenthesis or an operator of precedence below `lvl`, so processing a
subexpression rendered at level `lvl` never pops into it. -/
def StackTopOK : List String → Nat → Prop
  | [], _ => True
  | x :: _, lvl => x = "(" ∨ (isOperator x = true ∧ precedence x < lvl)

-- ------------------------ Program model ------------------------

/-- One node action.  The source stores actions as prefixed strings built
by the parser (`"SET name expr"`, `"SIGNAL name expr"`,
`"IF cond GOTO target"` / `"IF cond GOTO target ELSE elseTarget"`,
`"GOTO target"`, `"END"`, `"STMT s"`, `"SHOW text"`) and re-splits them at
run time by prefix matching.  The parser emits names and condition/
expression texts with no embedded spaces (it concatenates token texts), so
the runtime's space/`" GOTO "`/`" ELSE "` splitting recovers exactly the
components stored here; an absent else-target is the empty string, exactly
as in the source (`elseTarget.empty()`). -/
inductive Action
  | set (name expr : String)
  | signal (name expr : String)
  | ifGoto (cond target elseTarget : String)
  | goto (target : String)
  | ende
  | stmt (s : String)
  | showA (text : String)
deriving DecidableEq

/-- A `choice <id> : "<text>" -> <target>;` entry of a node. -/
structure Choice where
  id : Int
  text : String
  target : String
deriving DecidableEq

/-- A dialogue node: display text, choices, and the ordered action list. -/
structure Node where
  name : String := ""
  text : String := ""
  choices : List Choice := []
  actions : List Action := []
deriving DecidableEq

/-- A class definition: default fields, method bodies, parameter lists. -/
structure ClassDef where
  name : String := ""
  fields : Fields := []
  methods : List (String × List Action) := []
  methodParams : List (String × List String) := []
deriving DecidableEq

/-- The program model (`struct Program`): global tables, nodes, entry
point, classes, live objects and the instance→class binding. -/
structure Prog where
  npc : String := ""
  desc : String := ""
  vars : IntMap := []
  boolVars : BoolMap := []
  stringVars : List (String × String) := []
  nodes : List (String × Node) := []
  entry : String := ""
  classes : List (String × ClassDef) := []
  objects : ObjMap := []
  instanceClass : List (String × String) := []
deriving DecidableEq

/-- `trim` from the source: strip leading and trailing whitespace. -/
def trimChars (cs : List Char) : List Char :=
  ((cs.dropWhile cIsSpace).reverse.dropWhile cIsSpace).reverse

/-- `trim` on strings. -/
def trimM (s : String) : String := String.mk (trimChars s.data)

/-- The parser's capture of one raw statement (method bodies and the node
catch-all): the token texts are concatenated with **no** separators
(`stmt += tk.text;`) and the result trimmed.  `set health = health - amount`
is captured as `"sethealth=health-amount"`. -/
def captureStmt (tokenTexts : List String) : String :=
  trimM (String.mk (tokenTexts.foldr (fun t acc => t.data ++ acc) []))

/-- `s.find(c)` (first index of a character, `none` for `npos`). -/
def findCharIdx (c : Char) (s : String) : Option Nat :=
  findIdxM (fun x => x = c) s.data

/-- `s.rfind(c)` (last index of a character, `none` for `npos`). -/
def rfindCharIdx (c : Char) (s : String) : Option Nat :=
  match findIdxM (fun x => x = c) s.data.reverse with
  | none => none
  | some i => some (s.data.length - 1 - i)

/-- `s.substr(pos, len)`. -/
def substrM (s : String) (pos len : Nat) : String :=
  String.mk ((s.data.drop pos).take len)

/-- `s.substr(pos)` (to end of string). -/
def substrEndM (s : String) (pos : Nat) : String :=
  String.mk (s.data.drop pos)

/-- `s.rfind(prefix, 0) == 0` prefix tests, on the character lists (the
byte-position `String.startsWith` does not reduce in the kernel). -/
def startsWithM (p s : String) : Bool := p.data.isPrefixOf s.data

/-- `splitArgs` loop from the source: split on commas at parenthesis depth
0, trimming each piece; a trailing non-empty buffer is trimmed and
appended. -/
def splitArgsGo : List Char → Int → List Char → List String
  | [], _, cur => if cur ≠ [] then [String.mk (trimChars cur)] else []
  | c :: rest, depth, cur =>
    if c = '(' then splitArgsGo rest (depth + 1) (cur ++ [c])
    else if c = ')' then splitArgsGo rest (depth - 1) (cur ++ [c])
    else if c = ',' ∧ depth = 0 then
      String.mk (trimChars cur) :: splitArgsGo rest depth []
    else splitArgsGo rest depth (cur ++ [c])

/-- `splitArgs` from the source (empty pieces removed at the end). -/
def splitArgs (s : String) : List String :=
  (splitArgsGo s.data 0 []).filter (fun t => t ≠ "")

/-- Evaluate a list of argument expressions left to right (the loop before
`executeMethod` is dispatched); an exception in any evaluation aborts. -/
def evalArgs : List String → IntMap → BoolMap → ObjMap → Option (List Int)
  | [], _, _, _ => some []
  | e :: es, vars, bvs, objs =>
    match evalExpressionString e vars bvs objs with
    | none => none
    | some v =>
      match evalArgs es vars bvs objs with
      | none => none
      | some vs => some (v :: vs)

/-- The `[@You]` → `[player]` replacement loop (the scan resumes after the
inserted text, mirroring `pos += playerName.size() + 2`). -/
def replaceYou (player : String) : List Char → List Char
  | '[' :: '@' :: 'Y' :: 'o' :: 'u' :: ']' :: rest =>
    '[' :: (player.data ++ ']' :: replaceYou player rest)
  | c :: rest => c :: replaceYou player rest
  | [] => []

/-- The `${name}` interpolation loop shared by node text and `SHOW`
rendering, parameterised by the name-resolution rule `f`.  A `${` with no
closing `}` leaves the remainder untouched (the `break` in the source);
the scan resumes after the substituted value.  (In the node-text variant
the source resumes the search only one character later, which is
extensionally the same here because every substituted value — a decimal
numeral, `true`/`false`, or `"0"` — contains no `${`.) -/
def interpGo (f : String → String) : List Char → List Char
  | '$' :: '{' :: rest =>
    match findIdxM (fun c => c = '}') rest with
    | none => '$' :: '{' :: rest
    | some i =>
      (f (String.mk (rest.take i))).data ++ interpGo f (rest.drop (i + 1))
  | c :: rest => c :: interpGo f rest
  | [] => []
termination_by cs => cs.length
decreasing_by
  all_goals simp_wf
  all_goals omega

/-- Name resolution for `${...}` in node text: dotted names read object
fields (absent gives `"0"`), bare names read the run-local boolean table,
then the run-local integer table, defaulting to `"0"`. -/
def interpVarNode (vars : IntMap) (boolVars : BoolMap) (objects : ObjMap)
    (name : String) : String :=
  let pr := splitDot name
  if pr.2 ≠ "" then
    match lookupM objects pr.1 with
    | some flds =>
      match lookupM flds pr.2 with
      | some v => toString v
      | none => "0"
    | none => "0"
  else
    match lookupM boolVars name with
    | some b => if b then "true" else "false"
    | none =>
      match lookupM vars name with
      | some v => toString v
      | none => "0"

/-- Name resolution for `${...}` in `SHOW` text: `prog.stringVars`, then
`prog.boolVars` (note: the *program* table, not the run-local copy), then
the given integer table, then dotted object fields, defaulting to `"0"`. -/
def interpVarShow (prog : Prog) (vars : IntMap) (objects : ObjMap)
    (name : String) : String :=
  match lookupM prog.stringVars name with
  | some s => s
  | none =>
    match lookupM prog.boolVars name with
    | some b => if b then "true" else "false"
    | none =>
      match lookupM vars name with
      | some v => toString v
      | none =>
        let pr := splitDot name
        if pr.2 ≠ "" then
          match lookupM objects pr.1 with
          | some flds =>
            match lookupM flds pr.2 with
            | some v => toString v
            | none => "0"
          | none => "0"
        else "0"

-- ------------------------ Method execution ------------------------

/-- Result of `executeActionsWithContext`: the (by-reference) program,
local variable tables, local object table and output after the loop, the
`return` value (`false` = an `END` action ran), and the captured jump
(ignored by `executeMethod`). -/
structure MRes where
  prog : Prog
  vars : IntMap
  boolVars : BoolMap
  objects : ObjMap
  out : List String
  cont : Bool
  jumped : Bool
  target : String

/-- The non-method-call half of the method-level `STMT` branch: a statement
starting with `print` evaluates or echoes its parenthesised payload (the
evaluated value is printed as `true`/`false`); anything else is silently
ignored. -/
def execMethodStmtFallback (s : String) (vars : IntMap)
    (boolVars : BoolMap) (objects : ObjMap) (out : List String) :
    Option (List String) :=
  if startsWithM "print" s then
    match findCharIdx '(' s, rfindCharIdx ')' s with
    | some p, some q =>
      if q > p then
        let inner := substrM s (p + 1) (q - p - 1)
        if inner.length ≥ 2 ∧ inner.data.head? = some '"' ∧
            inner.data.getLast? = some '"' then
          some (out ++ [substrM inner 1 (inner.length - 2)])
        else
          match evalExpressionString inner vars boolVars objects with
          | none => none
          | some v => some (out ++ [if v ≠ 0 then "true" else "false"])
      else some out
    | _, _ => some out
  else some out

/-- `executeActionsWithContext` from the source (the method-body action
loop).  `SET` on a dotted name writes the local object table; on a bare
name it writes the instance's field if one of that name exists, else a
known boolean, else the local integer table.  `IF`/`GOTO` record a jump and
break (the caller ignores it); `END` returns `false`; `STMT` dispatches
`instance.method(args)` calls through `execM` — the source calls
`executeMethod` here; `executeMethod` below ties the knot, bounding the
call depth with its fuel — and `print(...)`; `SHOW` interpolates and
prints. -/
def executeActionsWithContext
    (execM : Prog → String → String → List Int → List String →
      Option (Prog × List String)) (actions : List Action)
    (prog : Prog) (vars : IntMap) (boolVars : BoolMap) (objects : ObjMap)
    (thisInstance : String) (out : List String) : Option MRes :=
  match actions with
  | [] => some ⟨prog, vars, boolVars, objects, out, true, false, ""⟩
  | act :: rest =>
    match act with
    | .set name expr =>
      match evalExpressionString expr vars boolVars objects with
      | none => none
      | some v =>
        let pr := splitDot name
        if pr.2 ≠ "" then
          executeActionsWithContext execM rest prog vars boolVars
            (osetField objects pr.1 pr.2 v) thisInstance out
        else if thisInstance ≠ "" ∧ hasM objects thisInstance ∧
            hasM ((lookupM objects thisInstance).getD []) name then
          executeActionsWithContext execM rest prog vars boolVars
            (osetField objects thisInstance name v) thisInstance out
        else if hasM boolVars name then
          executeActionsWithContext execM rest prog vars
            (insertM boolVars name (v ≠ 0)) objects thisInstance out
        else
          executeActionsWithContext execM rest prog (insertM vars name v)
            boolVars objects thisInstance out
    | .signal name expr =>
      match evalExpressionString expr vars boolVars objects with
      | none => none
      | some v =>
        executeActionsWithContext execM rest prog vars boolVars objects
          thisInstance (out ++ ["[SIGNAL] " ++ name ++ " = " ++ toString v])
    | .ifGoto cond target elseT =>
      match evalExpressionString cond vars boolVars objects with
      | none => none
      | some r =>
        if r ≠ 0 then
          some ⟨prog, vars, boolVars, objects, out, true, true, target⟩
        else if elseT ≠ "" then
          some ⟨prog, vars, boolVars, objects, out, true, true, elseT⟩
        else
          executeActionsWithContext execM rest prog vars boolVars objects
            thisInstance out
    | .goto target =>
      some ⟨prog, vars, boolVars, objects, out, true, true, target⟩
    | .ende =>
      some ⟨prog, vars, boolVars, objects, out ++ ["[Dialogue ended]"],
        false, false, ""⟩
    | .stmt s0 =>
      let s := trimM s0
      let dotp := findCharIdx '.' s
      let paren := findCharIdx '(' s
      match dotp, paren with
      | some dp, some pp =>
        if pp > dp then
          let inst := substrM s 0 dp
          let meth := substrM s (dp + 1) (pp - (dp + 1))
          let argsraw :=
            match rfindCharIdx ')' s with
            | some rp => if rp > pp then substrM s (pp + 1) (rp - pp - 1)
                         else substrEndM s (pp + 1)
            | none => substrEndM s (pp + 1)
          match evalArgs (splitArgs argsraw) vars boolVars objects with
          | none => none
          | some argVals =>
            match execM prog inst meth argVals out with
            | none => none
            | some (prog', out') =>
              executeActionsWithContext execM rest prog' vars boolVars objects
                thisInstance out'
        else
          match execMethodStmtFallback s vars boolVars objects out with
          | none => none
          | some out' =>
            executeActionsWithContext execM rest prog vars boolVars objects
              thisInstance out'
      | _, _ =>
        match execMethodStmtFallback s vars boolVars objects out with
        | none => none
        | some out' =>
          executeActionsWithContext execM rest prog vars boolVars objects
            thisInstance out'
    | .showA text =>
      executeActionsWithContext execM rest prog vars boolVars objects
        thisInstance
        (out ++ [String.mk (interpGo (interpVarShow prog vars objects) text.data)])


/-- `executeMethod` from the source.  Unknown instance/class/method is a
diagnostic (stderr, untracked here) and a skipped dispatch.  The local
scope is seeded from the global tables, overlaid with positional parameter
bindings (truncated to the shorter list), then with the instance's current
fields for names not already bound.  The body runs on a *copy* of the
object table; afterwards class-declared fields present in the local scope
are written back into `prog.objects`, every global present in the local
scope is written back, and finally `prog.objects` is replaced wholesale by
the local copy (which supersedes the field write-back).  `fuel` bounds the
method-call recursion depth (`none` = the C++ recursion does not return, or
an exception escaped). -/
def executeMethod (fuel : Nat) (prog : Prog) (instanceName methodName : String)
    (argValues : List Int) (out : List String) : Option (Prog × List String) :=
  match fuel with
  | 0 => none
  | fuel + 1 =>
    match lookupM prog.instanceClass instanceName with
    | none => some (prog, out)
    | some cls =>
      match lookupM prog.classes cls with
      | none => some (prog, out)
      | some cdef =>
        match lookupM cdef.methods methodName with
        | none => some (prog, out)
        | some actions =>
          let paramNames := (lookupM cdef.methodParams methodName).getD []
          let localVars1 := (paramNames.zip argValues).foldl
            (fun m pv => insertM m pv.1 pv.2) prog.vars
          let objects1 := if hasM prog.objects instanceName then prog.objects
            else insertM prog.objects instanceName cdef.fields
          let instFields := (lookupM objects1 instanceName).getD []
          let localVars := instFields.foldl
            (fun m fv => if hasM m fv.1 then m else insertM m fv.1 fv.2) localVars1
          match executeActionsWithContext
              (fun p i m a o => executeMethod fuel p i m a o) actions prog
              localVars prog.boolVars objects1 instanceName out with
          | none => none
          | some res =>
            let objsFB := cdef.fields.foldl (fun os fv =>
              match lookupM res.vars fv.1 with
              | some v => osetField os instanceName fv.1 v
              | none => os) res.prog.objects
            let varsWB := res.prog.vars.map (fun kv =>
              match lookupM res.vars kv.1 with
              | some w => (kv.1, w)
              | none => kv)
            let boolsWB := res.prog.boolVars.map (fun kv =>
              match lookupM res.boolVars kv.1 with
              | some w => (kv.1, w)
              | none => kv)
            let prog2 := { res.prog with objects := objsFB }
            let prog3 := { prog2 with vars := varsWB }
            let prog4 := { prog3 with boolVars := boolsWB }
            some ({ prog4 with objects := res.objects }, res.out)
termination_by structural fuel

-- ------------------------ Node-level run loop ------------------------

/-- The run-time state threaded through `runProgram`: the shared program
(whose `objects` table the loop aliases by reference), the **run-local
copies** of the integer and boolean global tables made at the top of
`runProgram` (`vars = prog.vars; boolVars = prog.boolVars` — copies, unlike
`objects`), the player name, and the `stdout` transcript (stderr
diagnostics are not tracked). -/
structure RunCtx where
  prog : Prog
  vars : IntMap
  boolVars : BoolMap
  player : String
  out : List String
deriving DecidableEq

/-- How one node's action list ended: a control-flow jump to a node, an
`END` action, or falling off the end of the list. -/
inductive NodeExit
  | jumped (target : String)
  | ended
  | fell
deriving DecidableEq

/-- Render node display text: `[@You]` substitution, then `${...}`
interpolation against the run-local tables and the object table. -/
def renderNodeText (ctx : RunCtx) (text : String) : String :=
  String.mk (interpGo (interpVarNode ctx.vars ctx.boolVars ctx.prog.objects)
    (replaceYou ctx.player text.data))

/-- The `STMT` handler inlined in `runProgram`'s action loop.  Unlike the
method-level one it also recognises inline `new Class inst;` statements
(prefixed `"new "` — note the parser's separator-free statement capture
never actually produces that prefix) and requires the full `"print("`
prefix.  Returns the updated context (`none` = exception escaped). -/
def execNodeStmt (fuel : Nat) (s0 : String) (ctx : RunCtx) : Option RunCtx :=
  let s := trimM s0
  let dotp := findCharIdx '.' s
  let paren := findCharIdx '(' s
  let isCall : Bool := dotp.elim false (fun dp =>
    paren.elim false (fun pp => decide (pp > dp)))
  if isCall then
    let dp := dotp.getD 0
    let pp := paren.getD 0
    let inst := substrM s 0 dp
    let meth := substrM s (dp + 1) (pp - (dp + 1))
    let argsraw := (rfindCharIdx ')' s).elim (substrEndM s (pp + 1))
      (fun rp => if rp > pp then substrM s (pp + 1) (rp - pp - 1)
                 else substrEndM s (pp + 1))
    (evalArgs (splitArgs argsraw) ctx.vars ctx.boolVars ctx.prog.objects).bind
      (fun argVals =>
        (executeMethod fuel ctx.prog inst meth argVals ctx.out).map
          (fun r => { ctx with prog := r.1, out := r.2 }))
  else if startsWithM "new " s then
    let restS := substrEndM s 4
    let ws := (restS.data.splitOn ' ').filter (fun w => w ≠ [])
    let className := String.mk (ws.headD [])
    let instName := String.mk ((ws.drop 1).headD [])
    (lookupM ctx.prog.classes className).elim (some ctx) (fun cdef =>
      some { ctx with prog := { ctx.prog with
        objects := insertM ctx.prog.objects instName cdef.fields,
        instanceClass := insertM ctx.prog.instanceClass instName className } })
  else if startsWithM "print(" s then
    (findCharIdx '(' s).elim (some ctx) (fun p =>
      (rfindCharIdx ')' s).elim (some ctx) (fun q =>
        if q > p then
          let inner := substrM s (p + 1) (q - p - 1)
          if inner.length ≥ 2 ∧ inner.data.head? = some '"' ∧
              inner.data.getLast? = some '"' then
            some { ctx with out := ctx.out ++
              [substrM inner 1 (inner.length - 2)] }
          else
            (evalExpressionString inner ctx.vars ctx.boolVars
              ctx.prog.objects).map
              (fun (v : Int) => { ctx with out := ctx.out ++
                [if v ≠ 0 then "true" else "false"] })
        else some ctx))
  else some ctx

/-- The node-level `SET` assignment (the branch structure of the inlined
action loop): a dotted target writes the shared object table (creating the
object if needed), a name already present in the run-local boolean table
writes there as a truthiness, and any other name writes the run-local
integer table. -/
def setStepNode (ctx : RunCtx) (name : String) (v : Int) : RunCtx :=
  if (splitDot name).2 ≠ "" then
    { ctx with prog := { ctx.prog with
        objects := osetField ctx.prog.objects (splitDot name).1
          (splitDot name).2 v } }
  else if hasM ctx.boolVars name then
    { ctx with boolVars := insertM ctx.boolVars name (v ≠ 0) }
  else { ctx with vars := insertM ctx.vars name v }

/-- The action loop inlined in `runProgram` for a node with no choices.
`SET` assigns per `setStepNode`; `SIGNAL` and the evaluated form of
`print` render the value as `true`/`false`.  `IF` and `GOTO` abort the
rest of the visit with a jump; `END` halts the run.  A `none` from an
expression evaluation (a thrown exception) aborts everything, via
`Option.bind`. -/
def runNodeActions (fuel : Nat) : List Action → RunCtx → Option (RunCtx × NodeExit)
  | [], ctx => some (ctx, .fell)
  | .set name expr :: rest, ctx =>
    (evalExpressionString expr ctx.vars ctx.boolVars ctx.prog.objects).bind
      (fun v => runNodeActions fuel rest (setStepNode ctx name v))
  | .signal name expr :: rest, ctx =>
    (evalExpressionString expr ctx.vars ctx.boolVars ctx.prog.objects).bind
      (fun v => runNodeActions fuel rest { ctx with out := ctx.out ++
        ["[SIGNAL] " ++ name ++ " = " ++ (if v ≠ 0 then "true" else "false")] })
  | .ifGoto cond target elseT :: rest, ctx =>
    (evalExpressionString cond ctx.vars ctx.boolVars ctx.prog.objects).bind
      (fun r =>
        if r ≠ 0 then some (ctx, .jumped target)
        else if elseT ≠ "" then some (ctx, .jumped elseT)
        else runNodeActions fuel rest ctx)
  | .goto target :: _, ctx => some (ctx, .jumped target)
  | .ende :: _, ctx =>
    some ({ ctx with out := ctx.out ++ ["[Dialogue ended]"] }, .ended)
  | .stmt s :: rest, ctx =>
    (execNodeStmt fuel s ctx).bind (fun ctx' => runNodeActions fuel rest ctx')
  | .showA text :: rest, ctx =>
    runNodeActions fuel rest { ctx with out := ctx.out ++
      [String.mk (interpGo (interpVarShow ctx.prog ctx.vars ctx.prog.objects)
        text.data)] }

/-- The blocking choice-selection loop: one `Choose:` prompt per read; a
failed numeric read prints `Invalid`, a number matching no declared choice
id prints `Invalid choice`; the first matching read selects the **first**
choice with that id.  The operator's inputs are modelled as a list
(`none` = a non-numeric entry); exhausting the list (`none` result) models
blocking forever on input. -/
def chooseFrom (choices : List Choice) :
    List (Option Int) → List String → Option (String × List (Option Int) × List String)
  | [], _ => none
  | none :: rest, out =>
    chooseFrom choices rest (out ++ ["Choose: "] ++ ["Invalid"])
  | some sel :: rest, out =>
    (choices.find? (fun c => c.id = sel)).elim
      (chooseFrom choices rest (out ++ ["Choose: "] ++ ["Invalid choice"]))
      (fun c => some (c.target, rest, out ++ ["Choose: "]))

/-- An operator input the choice loop rejects: a failed numeric read
(`cin.fail()`), or a number equal to no declared choice id. -/
def invalidInput (choices : List Choice) : Option Int → Bool
  | none => true
  | some sel => choices.find? (fun c => c.id = sel) = none

/-- How a node visit ended for the outer loop. -/
inductive VisitResult
  | next (target : String)
  | endedRun
  | noEdge
deriving DecidableEq

/-- One iteration of `runProgram`'s `while (true)` body after the node
lookup: render the node text, then either run the choice dialogue
(transitioning unconditionally to the selected target and never touching
the action list) or run the action list and translate its exit. -/
def visitNode (fuel : Nat) (node : Node) (ctx : RunCtx)
    (inputs : List (Option Int)) :
    Option (RunCtx × List (Option Int) × VisitResult) :=
  let ctx1 := if node.text ≠ "" then
      { ctx with out := ctx.out ++ [renderNodeText ctx node.text] }
    else ctx
  if ¬ node.choices.isEmpty then
    let ctx2 := { ctx1 with out := ctx1.out ++ node.choices.map (fun (c : Choice) =>
      "[" ++ toString c.id ++ "] " ++ String.mk (replaceYou ctx1.player c.text.data)) }
    (chooseFrom node.choices inputs ctx2.out).map (fun sel =>
      ({ ctx2 with out := sel.2.2 }, sel.2.1, .next sel.1))
  else
    (runNodeActions fuel node.actions ctx1).map (fun r =>
      match r.2 with
      | .jumped t => (r.1, inputs, .next t)
      | .ended => (r.1, inputs, .endedRun)
      | .fell =>
        ({ r.1 with out := r.1.out ++ ["[End of Conversation]"] }, inputs,
          .noEdge))

/-- Why the run loop stopped. -/
inductive TermKind
  | ended
  | noEdge
  | unknownNode
deriving DecidableEq

/-- The `while (true)` loop of `runProgram`: look up the current node
(unknown name aborts the loop), visit it, and continue at the transition
target.  `steps` bounds the number of node visits (`none` = the loop does
not terminate within the bound, or blocked/threw inside a visit); the
debugger hook is modelled as never pausing. -/
def runLoop : Nat → Nat → RunCtx → String → List (Option Int) →
    Option (RunCtx × TermKind)
  | 0, _, _, _, _ => none
  | steps + 1, fuel, ctx, current, inputs =>
    (lookupM ctx.prog.nodes current).elim (some (ctx, TermKind.unknownNode))
      (fun node => (visitNode fuel node ctx inputs).bind (fun r =>
        match r.2.2 with
        | .next t => runLoop steps fuel r.1 t r.2.1
        | .endedRun => some (r.1, TermKind.ended)
        | .noEdge => some (r.1, TermKind.noEdge)))

/-- `runProgram` from the source: print the npc/description header, make
the run-local copies of the global tables, and run the loop from the entry
node. -/
def runProgram (steps fuel : Nat) (prog : Prog) (player : String)
    (inputs : List (Option Int)) : Option (RunCtx × TermKind) :=
  let out0 := (if prog.npc ≠ "" then ["Npc: " ++ prog.npc] else []) ++
    (if prog.desc ≠ "" then ["Description: " ++ prog.desc] else [])
  runLoop steps fuel ⟨prog, prog.vars, prog.boolVars, player, out0⟩
    prog.entry inputs

-- ====================== Lemmas and theorems ======================

theorem takeWhile_append_of_all {p : Char → Bool} :
    ∀ (A l : List Char), (∀ c ∈ A, p c) →
    (A ++ l).takeWhile p = A ++ l.takeWhile p := by
  intro A
  induction A with
  | nil => intro l _; simp
  | cons a A ih =>
    intro l h
    have ha : p a := h a (by simp)
    simp only [List.cons_append, List.takeWhile_cons, ha, if_true]
    rw [ih l (fun c hc => h c (by simp [hc]))]

theorem dropWhile_append_of_all {p : Char → Bool} :
    ∀ (A l : List Char), (∀ c ∈ A, p c) →
    (A ++ l).dropWhile p = l.dropWhile p := by
  intro A
  induction A with
  | nil => intro l _; simp
  | cons a A ih =>
    intro l h
    have ha : p a := h a (by simp)
    simp only [List.cons_append, List.dropWhile_cons, ha, if_true]
    exact ih l (fun c hc => h c (by simp [hc]))

theorem takeWhile_of_all {p : Char → Bool} (A : List Char)
    (h : ∀ c ∈ A, p c) : A.takeWhile p = A := by
  have := takeWhile_append_of_all (p := p) A [] h
  simpa using this

theorem ofNat_digit_isDigit (d : Nat) (h : d < 10) :
    (Char.ofNat (48 + d)).isDigit = true := by
  interval_cases d <;> decide

theorem ofNat_digit_toNat (d : Nat) (h : d < 10) :
    (Char.ofNat (48 + d)).toNat = 48 + d := by
  interval_cases d <;> decide

theorem natDigits_ne_nil (n : Nat) : natDigits n ≠ [] := by
  rw [natDigits]
  split <;> simp

theorem natDigits_all_digit (n : Nat) : ∀ c ∈ natDigits n, c.isDigit = true := by
  induction n using Nat.strong_induction_on with
  | _ n ih =>
    rw [natDigits]
    split
    · intro c hc
      simp only [List.mem_singleton] at hc
      subst hc
      exact ofNat_digit_isDigit n (by omega)
    · intro c hc
      rcases List.mem_append.mp hc with h1 | h2
      · exact ih (n / 10) (Nat.div_lt_self (by omega) (by omega)) c h1
      · simp only [List.mem_singleton] at h2
        subst h2
        exact ofNat_digit_isDigit (n % 10) (Nat.mod_lt _ (by omega))

theorem digitsVal_append_singleton (A : List Char) (c : Char) :
    digitsVal (A ++ [c]) = digitsVal A * 10 + (c.toNat - 48) := by
  simp [digitsVal, List.foldl_append]

theorem digitsVal_natDigits (n : Nat) : digitsVal (natDigits n) = n := by
  induction n using Nat.strong_induction_on with
  | _ n ih =>
    rw [natDigits]
    split
    · next h =>
      simp [digitsVal, ofNat_digit_toNat n h]
    · next h =>
      rw [digitsVal_append_singleton,
        ih (n / 10) (Nat.div_lt_self (by omega) (by omega)),
        ofNat_digit_toNat (n % 10) (Nat.mod_lt _ (by omega))]
      omega

theorem natStr_data (n : Nat) : (natStr n).data = natDigits n := rfl

theorem stollM_natStr (n : Nat) (h : n ≤ 9223372036854775807) :
    stollM (natStr n) = some (n : Int) := by
  obtain ⟨c, cs, hd⟩ : ∃ c cs, natDigits n = c :: cs := by
    cases hn : natDigits n with
    | nil => exact absurd hn (natDigits_ne_nil n)
    | cons c cs => exact ⟨c, cs, rfl⟩
  have hall : ∀ x ∈ c :: cs, x.isDigit = true := by
    rw [← hd]; exact natDigits_all_digit n
  have hc : c.isDigit = true := hall c (by simp)
  have hcm : c ≠ '-' := by rintro rfl; simp at hc
  have hcp : c ≠ '+' := by rintro rfl; simp at hc
  rw [stollM]
  rw [natStr_data, hd]
  change (if c = '-' then stollCore true cs
    else if c = '+' then stollCore false cs
    else stollCore false (c :: cs)) = some (n : Int)
  rw [if_neg hcm, if_neg hcp]
  rw [stollCore]
  simp only [takeWhile_of_all _ hall]
  rw [if_neg (by simp), if_neg (by simp)]
  rw [← hd, digitsVal_natDigits]
  rw [if_pos (by omega)]

theorem isOperator_iff (t : String) :
    isOperator t = true ↔
    (t = "+" ∨ t = "-" ∨ t = "*" ∨ t = "/" ∨ t = "==" ∨ t = "!=" ∨
     t = "<" ∨ t = "<=" ∨ t = ">" ∨ t = ">=") := by
  simp [isOperator]

theorem digit_head_shape (t : String) (c : Char) (cs : List Char)
    (h : t.data = c :: cs) (hc : c.isDigit = true) :
    isOperator t = false ∧ t ≠ "(" ∧ t ≠ ")" ∧ t ≠ "" ∧
    t ≠ "true" ∧ t ≠ "false" ∧ isNumericTok t = true := by
  have hlit : ∀ (u : String), u.data.head? ≠ some c → t ≠ u := by
    intro u hu heq
    apply hu
    rw [← heq, h]
    rfl
  have hdig : ∀ (u : String), (u.data.head?.map Char.isDigit ≠ some true) →
      t ≠ u := by
    intro u hu heq
    apply hu
    rw [← heq, h]
    simp [hc]
  refine ⟨?_, ?_, ?_, ?_, ?_, ?_, ?_⟩
  · rw [Bool.eq_false_iff]
    intro hop
    rcases (isOperator_iff t).mp hop with
      h1 | h1 | h1 | h1 | h1 | h1 | h1 | h1 | h1 | h1 <;>
      exact hdig _ (by decide) h1
  · exact hdig "(" (by decide)
  · exact hdig ")" (by decide)
  · intro heq; rw [heq] at h; simp at h
  · exact hdig "true" (by decide)
  · exact hdig "false" (by decide)
  · rw [isNumericTok, h]
    simp [hc]

theorem natStr_shape (n : Nat) :
    isOperator (natStr n) = false ∧ natStr n ≠ "(" ∧ natStr n ≠ ")" ∧
    natStr n ≠ "" ∧ natStr n ≠ "true" ∧ natStr n ≠ "false" ∧
    isNumericTok (natStr n) = true := by
  obtain ⟨c, cs, hd⟩ : ∃ c cs, natDigits n = c :: cs := by
    cases hn : natDigits n with
    | nil => exact absurd hn (natDigits_ne_nil n)
    | cons c cs => exact ⟨c, cs, rfl⟩
  exact digit_head_shape (natStr n) c cs (by rw [natStr_data, hd])
    (natDigits_all_digit n c (by rw [hd]; simp))

theorem isOperator_opStr (o : BOp) : isOperator (opStr o) = true := by
  cases o <;> decide

theorem precedence_opStr (o : BOp) : precedence (opStr o) = precOp o := by
  cases o <;> decide

theorem precOp_pos (o : BOp) : 1 ≤ precOp o := by
  cases o <;> decide

theorem precOp_le (o : BOp) : precOp o ≤ 3 := by
  cases o <;> decide

theorem opStr_ne_empty (o : BOp) : opStr o ≠ "" := by
  cases o <;> decide

theorem opStr_ne_lparen (o : BOp) : opStr o ≠ "(" := by
  cases o <;> decide

theorem opStr_ne_rparen (o : BOp) : opStr o ≠ ")" := by
  cases o <;> decide

theorem applyOp_opStr (o : BOp) (a b : Int) :
    applyOp (opStr o) a b = opDenote o a b := by
  cases o <;> rfl

theorem isOperator_not_lparen (t : String) (h : isOperator t = true) :
    t ≠ "(" := by
  rintro rfl
  simp [isOperator] at h

theorem renderToks_good (e : Expr) : ∀ lvl, ∀ t ∈ renderToks e lvl, GoodTok t := by
  induction e with
  | num n =>
    intro lvl t ht
    simp only [renderToks, List.mem_singleton] at ht
    subst ht
    right; right; right
    refine ⟨?_, ?_⟩
    · rw [natStr_data]; exact natDigits_ne_nil n
    · rw [natStr_data]; exact natDigits_all_digit n
  | bin o l r ihl ihr =>
    intro lvl t ht
    have hcore : t ∈ renderToks l (precOp o) ++
        opStr o :: renderToks r (precOp o + 1) → GoodTok t := by
      intro hc
      rcases List.mem_append.mp hc with h1 | h1
      · exact ihl _ t h1
      · rcases List.mem_cons.mp h1 with rfl | h2
        · right; right; left; exact isOperator_opStr o
        · exact ihr _ t h2
    simp only [renderToks] at ht
    split at ht
    · rcases List.mem_cons.mp ht with rfl | ht2
      · left; rfl
      · rcases List.mem_append.mp ht2 with h1 | h1
        · exact hcore h1
        · right; left; simpa using h1
    · exact hcore ht

theorem tokGo_fuel : ∀ (k : Nat) (cs : List Char) (f1 f2 : Nat),
    cs.length ≤ k → cs.length ≤ f1 → cs.length ≤ f2 →
    tokGo f1 cs = tokGo f2 cs := by
  intro k
  induction k with
  | zero =>
    intro cs f1 f2 hk _ _
    have : cs = [] := List.eq_nil_of_length_eq_zero (by omega)
    subst this
    cases f1 <;> cases f2 <;> rfl
  | succ k ih =>
    intro cs f1 f2 hk h1 h2
    cases cs with
    | nil => cases f1 <;> cases f2 <;> rfl
    | cons c cs' =>
      simp only [List.length_cons] at hk h1 h2
      cases f1 with
      | zero => omega
      | succ f1' =>
        cases f2 with
        | zero => omega
        | succ f2' =>
          cases cs' with
          | nil =>
            by_cases hsp : cIsSpace c = true
            · have e1 : tokGo (f1' + 1) [c] = [] := by
                rw [tokGo, if_pos hsp]
                cases f1' <;> rfl
              have e2 : tokGo (f2' + 1) [c] = [] := by
                rw [tokGo, if_pos hsp]
                cases f2' <;> rfl
              rw [e1, e2]
            · have hleaf : ∀ f : Nat, tokGo (f + 1) [c] =
                  (if isExprSym c = true then [String.mk [c]]
                   else if c.isDigit = true then [String.mk [c]]
                   else if c.isAlpha = true ∨ c = '_' then [String.mk [c]]
                   else []) := by
                intro f
                rw [tokGo, if_neg hsp]
              rw [hleaf f1', hleaf f2']
          | cons c2 cs2 =>
            simp only [List.length_cons] at hk h1 h2
            by_cases hsp : cIsSpace c = true
            · rw [tokGo, if_pos hsp, tokGo, if_pos hsp]
              exact ih (c2 :: cs2) f1' f2' (by simp; omega) (by simp; omega)
                (by simp; omega)
            · rw [tokGo, if_neg hsp, tokGo, if_neg hsp]
              by_cases h2c : (c = '<' ∧ c2 = '=') ∨ (c = '>' ∧ c2 = '=') ∨
                  (c = '=' ∧ c2 = '=') ∨ (c = '!' ∧ c2 = '=')
              · rw [if_pos h2c, if_pos h2c]
                rw [ih cs2 f1' f2' (by omega) (by omega) (by omega)]
              · rw [if_neg h2c, if_neg h2c]
                by_cases hsym : isExprSym c = true
                · rw [if_pos hsym, if_pos hsym]
                  rw [ih (c2 :: cs2) f1' f2' (by simp; omega) (by simp; omega)
                    (by simp; omega)]
                · rw [if_neg hsym, if_neg hsym]
                  by_cases hdg : c.isDigit = true ∨
                      ((c = '-' ∨ c = '+') ∧ c2.isDigit = true)
                  · rw [if_pos hdg, if_pos hdg]
                    have hlen : ((c2 :: cs2).dropWhile Char.isDigit).length ≤
                        cs2.length + 1 := by
                      have := (List.dropWhile_sublist
                        (l := c2 :: cs2) Char.isDigit).length_le
                      simpa using this
                    rw [ih ((c2 :: cs2).dropWhile Char.isDigit) f1' f2'
                      (by omega) (by omega) (by omega)]
                  · rw [if_neg hdg, if_neg hdg]
                    by_cases hal : c.isAlpha = true ∨ c = '_'
                    · rw [if_pos hal, if_pos hal]
                      have hlen : ((c2 :: cs2).dropWhile isIdentCont).length ≤
                          cs2.length + 1 := by
                        have := (List.dropWhile_sublist
                          (l := c2 :: cs2) isIdentCont).length_le
                        simpa using this
                      rw [ih ((c2 :: cs2).dropWhile isIdentCont) f1' f2'
                        (by omega) (by omega) (by omega)]
                    · rw [if_neg hal, if_neg hal]
                      rw [ih (c2 :: cs2) f1' f2' (by simp; omega)
                        (by simp; omega) (by simp; omega)]

theorem tokGo_eq_tokenizeExpr (fuel : Nat) (cs : List Char)
    (h : cs.length ≤ fuel) : tokGo fuel cs = tokenizeExpr cs :=
  tokGo_fuel cs.length cs fuel cs.length le_rfl h le_rfl

theorem tokenizeExpr_nil : tokenizeExpr [] = [] := rfl

theorem tokenizeExpr_space (c : Char) (cs : List Char) (h : cIsSpace c = true) :
    tokenizeExpr (c :: cs) = tokenizeExpr cs := by
  cases cs with
  | nil =>
    show tokGo 1 [c] = tokenizeExpr []
    rw [tokGo, if_pos h]
    rfl
  | cons c2 cs2 =>
    show tokGo (cs2.length + 1 + 1) (c :: c2 :: cs2) = tokenizeExpr (c2 :: cs2)
    rw [tokGo, if_pos h]
    rfl

theorem tokenizeExpr_two (c c2 : Char) (cs2 : List Char)
    (hs : cIsSpace c = false)
    (h2 : (c = '<' ∧ c2 = '=') ∨ (c = '>' ∧ c2 = '=') ∨
          (c = '=' ∧ c2 = '=') ∨ (c = '!' ∧ c2 = '=')) :
    tokenizeExpr (c :: c2 :: cs2) = String.mk [c, c2] :: tokenizeExpr cs2 := by
  show tokGo (cs2.length + 1 + 1) (c :: c2 :: cs2) = _
  rw [tokGo, if_neg (by simp [hs]), if_pos h2]
  rw [tokGo_eq_tokenizeExpr (cs2.length + 1) cs2 (by omega)]

theorem tokenizeExpr_sym (c c2 : Char) (cs2 : List Char)
    (hs : cIsSpace c = false)
    (h2 : ¬((c = '<' ∧ c2 = '=') ∨ (c = '>' ∧ c2 = '=') ∨
            (c = '=' ∧ c2 = '=') ∨ (c = '!' ∧ c2 = '=')))
    (hsym : isExprSym c = true) :
    tokenizeExpr (c :: c2 :: cs2) = String.mk [c] :: tokenizeExpr (c2 :: cs2) := by
  show tokGo (cs2.length + 1 + 1) (c :: c2 :: cs2) = _
  rw [tokGo, if_neg (by simp [hs]), if_neg h2, if_pos hsym]
  rw [tokGo_eq_tokenizeExpr (cs2.length + 1) (c2 :: cs2) (by simp)]

theorem tokenizeExpr_digit (c c2 : Char) (cs2 : List Char)
    (hs : cIsSpace c = false)
    (h2 : ¬((c = '<' ∧ c2 = '=') ∨ (c = '>' ∧ c2 = '=') ∨
            (c = '=' ∧ c2 = '=') ∨ (c = '!' ∧ c2 = '=')))
    (hsym : isExprSym c = false) (hd : c.isDigit = true) :
    tokenizeExpr (c :: c2 :: cs2) =
      String.mk (c :: (c2 :: cs2).takeWhile Char.isDigit) ::
        tokenizeExpr ((c2 :: cs2).dropWhile Char.isDigit) := by
  show tokGo (cs2.length + 1 + 1) (c :: c2 :: cs2) = _
  rw [tokGo, if_neg (by simp [hs]), if_neg h2,
    if_neg (by simp [hsym]), if_pos (Or.inl hd)]
  rw [tokGo_eq_tokenizeExpr (cs2.length + 1)
    ((c2 :: cs2).dropWhile Char.isDigit)
    (by
      have := (List.dropWhile_sublist (l := c2 :: cs2) Char.isDigit).length_le
      simpa using this)]

theorem digit_char_facts (c : Char) (hc : c.isDigit = true) :
    cIsSpace c = false ∧ isExprSym c = false ∧
    c ≠ '<' ∧ c ≠ '>' ∧ c ≠ '=' ∧ c ≠ '!' := by
  refine ⟨?_, ?_, ?_, ?_, ?_, ?_⟩
  · rw [Bool.eq_false_iff]
    intro h
    simp only [cIsSpace, decide_eq_true_eq] at h
    rcases h with rfl | rfl | rfl | rfl | rfl | rfl <;> exact absurd hc (by decide)
  · rw [Bool.eq_false_iff]
    intro h
    simp only [isExprSym, decide_eq_true_eq] at h
    rcases h with rfl | rfl | rfl | rfl | rfl | rfl | rfl | rfl <;>
      exact absurd hc (by decide)
  · rintro rfl; exact absurd hc (by decide)
  · rintro rfl; exact absurd hc (by decide)
  · rintro rfl; exact absurd hc (by decide)
  · rintro rfl; exact absurd hc (by decide)

theorem renderChars_cons (t : String) (ts : List String) :
    renderChars (t :: ts) = t.data ++ ' ' :: renderChars ts := rfl

/-- Tokenizing the rendered text of any well-shaped token list recovers
exactly that token list. -/
theorem tokenizeExpr_renderChars :
    ∀ toks : List String, (∀ t ∈ toks, GoodTok t) →
    tokenizeExpr (renderChars toks) = toks := by
  intro toks
  induction toks with
  | nil => intro _; exact tokenizeExpr_nil
  | cons t ts ih =>
    intro hgood
    have hts : tokenizeExpr (renderChars ts) = ts :=
      ih (fun u hu => hgood u (by simp [hu]))
    rw [renderChars_cons]
    rcases hgood t (by simp) with rfl | rfl | hop | ⟨hne, hdig⟩
    · show tokenizeExpr ('(' :: ' ' :: renderChars ts) = "(" :: ts
      rw [tokenizeExpr_sym '(' ' ' _ (by decide) (by decide) (by decide)]
      rw [tokenizeExpr_space ' ' _ (by decide), hts]
    · show tokenizeExpr (')' :: ' ' :: renderChars ts) = ")" :: ts
      rw [tokenizeExpr_sym ')' ' ' _ (by decide) (by decide) (by decide)]
      rw [tokenizeExpr_space ' ' _ (by decide), hts]
    · rcases (isOperator_iff t).mp hop with
        rfl | rfl | rfl | rfl | rfl | rfl | rfl | rfl | rfl | rfl
      · show tokenizeExpr ('+' :: ' ' :: renderChars ts) = "+" :: ts
        rw [tokenizeExpr_sym '+' ' ' _ (by decide) (by decide) (by decide)]
        rw [tokenizeExpr_space ' ' _ (by decide), hts]
      · show tokenizeExpr ('-' :: ' ' :: renderChars ts) = "-" :: ts
        rw [tokenizeExpr_sym '-' ' ' _ (by decide) (by decide) (by decide)]
        rw [tokenizeExpr_space ' ' _ (by decide), hts]
      · show tokenizeExpr ('*' :: ' ' :: renderChars ts) = "*" :: ts
        rw [tokenizeExpr_sym '*' ' ' _ (by decide) (by decide) (by decide)]
        rw [tokenizeExpr_space ' ' _ (by decide), hts]
      · show tokenizeExpr ('/' :: ' ' :: renderChars ts) = "/" :: ts
        rw [tokenizeExpr_sym '/' ' ' _ (by decide) (by decide) (by decide)]
        rw [tokenizeExpr_space ' ' _ (by decide), hts]
      · show tokenizeExpr ('=' :: '=' :: ' ' :: renderChars ts) = "==" :: ts
        rw [tokenizeExpr_two '=' '=' _ (by decide) (by decide)]
        rw [tokenizeExpr_space ' ' _ (by decide), hts]
      · show tokenizeExpr ('!' :: '=' :: ' ' :: renderChars ts) = "!=" :: ts
        rw [tokenizeExpr_two '!' '=' _ (by decide) (by decide)]
        rw [tokenizeExpr_space ' ' _ (by decide), hts]
      · show tokenizeExpr ('<' :: ' ' :: renderChars ts) = "<" :: ts
        rw [tokenizeExpr_sym '<' ' ' _ (by decide) (by decide) (by decide)]
        rw [tokenizeExpr_space ' ' _ (by decide), hts]
      · show tokenizeExpr ('<' :: '=' :: ' ' :: renderChars ts) = "<=" :: ts
        rw [tokenizeExpr_two '<' '=' _ (by decide) (by decide)]
        rw [tokenizeExpr_space ' ' _ (by decide), hts]
      · show tokenizeExpr ('>' :: ' ' :: renderChars ts) = ">" :: ts
        rw [tokenizeExpr_sym '>' ' ' _ (by decide) (by decide) (by decide)]
        rw [tokenizeExpr_space ' ' _ (by decide), hts]
      · show tokenizeExpr ('>' :: '=' :: ' ' :: renderChars ts) = ">=" :: ts
        rw [tokenizeExpr_two '>' '=' _ (by decide) (by decide)]
        rw [tokenizeExpr_space ' ' _ (by decide), hts]
    · obtain ⟨c, ds, hd⟩ : ∃ c ds, t.data = c :: ds := by
        cases hn : t.data with
        | nil => exact absurd hn hne
        | cons c ds => exact ⟨c, ds, rfl⟩
      have hc : c.isDigit = true := hdig c (by rw [hd]; simp)
      have hds : ∀ x ∈ ds, x.isDigit = true := fun x hx =>
        hdig x (by rw [hd]; simp [hx])
      obtain ⟨hnsp, hnsym, hlt, hgt, heq, hbang⟩ := digit_char_facts c hc
      have htmk : String.mk (c :: ds) = t := by
        cases t with
        | mk d => cases hd; rfl
      rw [hd]
      cases ds with
      | nil =>
        rw [List.cons_append, List.nil_append]
        rw [tokenizeExpr_digit c ' ' _ hnsp
          (by rintro (⟨rfl, _⟩ | ⟨rfl, _⟩ | ⟨rfl, _⟩ | ⟨rfl, _⟩) <;>
            simp_all) hnsym hc]
        rw [show (' ' :: renderChars ts).takeWhile Char.isDigit = [] from rfl]
        rw [show (' ' :: renderChars ts).dropWhile Char.isDigit =
          ' ' :: renderChars ts from rfl]
        rw [tokenizeExpr_space ' ' _ (by decide), hts, htmk]
      | cons d ds' =>
        have hd2 : d.isDigit = true := hds d (by simp)
        rw [List.cons_append, List.cons_append]
        rw [tokenizeExpr_digit c d _ hnsp
          (by rintro (⟨rfl, _⟩ | ⟨rfl, _⟩ | ⟨rfl, _⟩ | ⟨rfl, _⟩) <;>
            simp_all) hnsym hc]
        have hrest : d :: (ds' ++ ' ' :: renderChars ts) =
            (d :: ds') ++ ' ' :: renderChars ts := rfl
        rw [hrest]
        rw [takeWhile_append_of_all (d :: ds') _ hds]
        rw [dropWhile_append_of_all (d :: ds') _ hds]
        rw [show (' ' :: renderChars ts).takeWhile Char.isDigit = [] from rfl]
        rw [show (' ' :: renderChars ts).dropWhile Char.isDigit =
          ' ' :: renderChars ts from rfl]
        rw [tokenizeExpr_space ' ' _ (by decide), hts]
        rw [List.append_nil, htmk]

theorem shunt_nil (st out : List String) : shunt [] st out = out ++ st := by
  rw [shunt]

theorem shunt_operand (t : String) (ts st out : List String) (h1 : t ≠ "")
    (h2 : isOperator t = false) (h3 : t ≠ "(") (h4 : t ≠ ")") :
    shunt (t :: ts) st out = shunt ts st (out ++ [t]) := by
  rw [shunt, if_neg h1, if_neg (by simp [h2]), if_neg h3, if_neg h4]

theorem shunt_op (t : String) (ts st out : List String) (h1 : t ≠ "")
    (h2 : isOperator t = true) :
    shunt (t :: ts) st out =
      shunt ts (t :: (popGE (precedence t) st).2)
        (out ++ (popGE (precedence t) st).1) := by
  rw [shunt, if_neg h1, if_pos h2]

theorem shunt_lparen (ts st out : List String) :
    shunt ("(" :: ts) st out = shunt ts ("(" :: st) out := by
  rw [shunt, if_neg (by decide), if_neg (by decide), if_pos rfl]

theorem shunt_rparen (ts st out : List String) :
    shunt (")" :: ts) st out =
      shunt ts (dropLParen (popToParen st).2) (out ++ (popToParen st).1) := by
  rw [shunt, if_neg (by decide), if_neg (by decide), if_neg (by decide),
    if_pos rfl]

theorem stackTopOK_mono {st : List String} {a b : Nat} (h : StackTopOK st a)
    (hab : a ≤ b) : StackTopOK st b := by
  cases st with
  | nil => trivial
  | cons x rest =>
    rcases h with h | ⟨h1, h2⟩
    · exact Or.inl h
    · exact Or.inr ⟨h1, by omega⟩

theorem popGE_eq (A : List String) (st : List String) (p : Nat)
    (hA : ∀ x ∈ A, isOperator x = true ∧ p ≤ precedence x)
    (hst : StackTopOK st p) : popGE p (A ++ st) = (A, st) := by
  induction A with
  | nil =>
    simp only [List.nil_append]
    cases st with
    | nil => rw [popGE]
    | cons x rest =>
      rw [popGE]
      rcases hst with h | ⟨h1, h2⟩
      · rw [if_neg]
        rintro ⟨hop, _⟩
        rw [h] at hop
        simp [isOperator] at hop
      · rw [if_neg]
        rintro ⟨_, hge⟩
        omega
  | cons a A ih =>
    have ha := hA a (by simp)
    rw [List.cons_append, popGE, if_pos ⟨ha.1, ha.2⟩,
      ih (fun x hx => hA x (by simp [hx]))]

theorem popToParen_eq (A : List String) (st : List String)
    (hA : ∀ x ∈ A, isOperator x = true) (hst : st.head? = some "(") :
    popToParen (A ++ st) = (A, st) := by
  induction A with
  | nil =>
    simp only [List.nil_append]
    cases st with
    | nil => simp at hst
    | cons x rest =>
      simp only [List.head?_cons, Option.some_inj] at hst
      rw [popToParen, if_pos hst]
  | cons a A ih =>
    have ha := hA a (by simp)
    rw [List.cons_append, popToParen, if_neg (isOperator_not_lparen a ha),
      ih (fun x hx => hA x (by simp [hx]))]

theorem done_pend (e : Expr) : ∀ lvl, doneOut e lvl ++ pendOps e lvl = rpnOf e := by
  induction e with
  | num n => intro lvl; simp [doneOut, pendOps, rpnOf]
  | bin o l r ihl ihr =>
    intro lvl
    by_cases hlt : precOp o < lvl
    · simp [doneOut, pendOps, hlt]
    · simp only [doneOut, pendOps, if_neg hlt, rpnOf]
      rw [List.append_assoc, ← List.append_assoc (doneOut r (precOp o + 1)),
        ihr (precOp o + 1), ← List.append_assoc]

theorem pend_ops_ok (e : Expr) : ∀ lvl, ∀ x ∈ pendOps e lvl,
    isOperator x = true ∧ lvl ≤ precedence x := by
  induction e with
  | num n => intro lvl x hx; simp [pendOps] at hx
  | bin o l r _ ihr =>
    intro lvl x hx
    simp only [pendOps] at hx
    split at hx
    · simp at hx
    · next hlt =>
      rcases List.mem_append.mp hx with h1 | h1
      · obtain ⟨ho, hp⟩ := ihr (precOp o + 1) x h1
        exact ⟨ho, by omega⟩
      · simp only [List.mem_singleton] at h1
        subst h1
        exact ⟨isOperator_opStr o, by rw [precedence_opStr]; omega⟩

theorem shunt_render (e : Expr) : ∀ (lvl : Nat) (st out rest : List String),
    StackTopOK st lvl →
    shunt (renderToks e lvl ++ rest) st out =
    shunt rest (pendOps e lvl ++ st) (out ++ doneOut e lvl) := by
  induction e with
  | num n =>
    intro lvl st out rest _
    obtain ⟨hop, hlp, hrp, hne, _, _, _⟩ := natStr_shape n
    simp only [renderToks, List.cons_append, List.nil_append]
    rw [shunt_operand _ _ _ _ hne hop hlp hrp]
    simp [pendOps, doneOut]
  | bin o l r ihl ihr =>
    intro lvl st out rest hok
    have hcore : ∀ (lvl' : Nat) (st' out' rest' : List String),
        lvl' ≤ precOp o → StackTopOK st' lvl' →
        shunt ((renderToks l (precOp o) ++
            opStr o :: renderToks r (precOp o + 1)) ++ rest') st' out' =
        shunt rest' ((pendOps r (precOp o + 1) ++ [opStr o]) ++ st')
          (out' ++ (rpnOf l ++ doneOut r (precOp o + 1))) := by
      intro lvl' st' out' rest' hle hok'
      rw [List.append_assoc, List.cons_append]
      rw [ihl (precOp o) st' out' _ (stackTopOK_mono hok' hle)]
      rw [shunt_op _ _ _ _ (opStr_ne_empty o) (isOperator_opStr o)]
      rw [precedence_opStr]
      rw [popGE_eq (pendOps l (precOp o)) st' (precOp o)
        (pend_ops_ok l (precOp o)) (stackTopOK_mono hok' hle)]
      rw [ihr (precOp o + 1) (opStr o :: st') _ rest'
        (Or.inr ⟨isOperator_opStr o, by rw [precedence_opStr]; omega⟩)]
      rw [List.append_assoc, List.append_assoc,
        ← List.append_assoc (doneOut l (precOp o)), done_pend l]
      simp [List.append_assoc]
    by_cases hlt : precOp o < lvl
    · have hrt : renderToks (.bin o l r) lvl ++ rest =
          "(" :: ((renderToks l (precOp o) ++
            opStr o :: renderToks r (precOp o + 1)) ++ (")" :: rest)) := by
        simp [renderToks, hlt, List.append_assoc]
      rw [hrt, shunt_lparen]
      rw [hcore (precOp o) ("(" :: st) out (")" :: rest) le_rfl (Or.inl rfl)]
      rw [shunt_rparen]
      rw [popToParen_eq (pendOps r (precOp o + 1) ++ [opStr o]) ("(" :: st)
        (by
          intro x hx
          rcases List.mem_append.mp hx with h1 | h1
          · exact (pend_ops_ok r (precOp o + 1) x h1).1
          · simp only [List.mem_singleton] at h1
            subst h1
            exact isOperator_opStr o)
        rfl]
      have hdl : dropLParen ("(" :: st) = st := by simp [dropLParen]
      rw [hdl]
      have hdone : doneOut (.bin o l r) lvl = rpnOf (.bin o l r) := by
        simp [doneOut, hlt]
      have hpend : pendOps (.bin o l r) lvl = [] := by
        simp [pendOps, hlt]
      rw [hdone, hpend, List.nil_append, rpnOf]
      congr 1
      rw [← done_pend r (precOp o + 1)]
      simp [List.append_assoc]
    · have hrt : renderToks (.bin o l r) lvl =
          renderToks l (precOp o) ++ opStr o :: renderToks r (precOp o + 1) := by
        simp [renderToks, hlt]
      have hdone : doneOut (.bin o l r) lvl =
          rpnOf l ++ doneOut r (precOp o + 1) := by
        simp [doneOut, hlt]
      have hpend : pendOps (.bin o l r) lvl =
          pendOps r (precOp o + 1) ++ [opStr o] := by
        simp [pendOps, hlt]
      rw [hrt, hcore lvl st out rest (by omega) hok, hdone, hpend]

theorem infixToRPN_renderToks (e : Expr) :
    infixToRPN (renderToks e 1) = rpnOf e := by
  have h := shunt_render e 1 [] [] [] trivial
  rw [List.append_nil] at h
  rw [infixToRPN, h, shunt_nil]
  rw [List.nil_append, List.append_nil]
  exact done_pend e 1

theorem evalRPNGo_nil (vars : IntMap) (boolVars : BoolMap) (objects : ObjMap)
    (st : List Int) :
    evalRPNGo vars boolVars objects [] st =
      some (match st with | [] => 0 | v :: _ => toInt32 v) := by
  cases st <;> rfl

theorem evalRPNGo_op (vars : IntMap) (boolVars : BoolMap) (objects : ObjMap)
    (t : String) (ts : List String) (st : List Int) (b a : Int)
    (h : isOperator t = true) :
    evalRPNGo vars boolVars objects (t :: ts) (b :: a :: st) =
      evalRPNGo vars boolVars objects ts (applyOp t a b :: st) := by
  rw [evalRPNGo, if_pos h]

theorem evalRPNGo_num (vars : IntMap) (boolVars : BoolMap) (objects : ObjMap)
    (t : String) (ts : List String) (st : List Int) (v0 : Int)
    (h1 : isOperator t = false) (h2 : isNumericTok t = true)
    (h3 : stollM t = some v0) :
    evalRPNGo vars boolVars objects (t :: ts) st =
      evalRPNGo vars boolVars objects ts (v0 :: st) := by
  rcases st with _ | ⟨x, _ | ⟨y, st2⟩⟩ <;>
    (rw [evalRPNGo, if_neg (by simp [h1]), if_pos h2, h3] <;> simp)

theorem evalRPNGo_num_throw (vars : IntMap) (boolVars : BoolMap)
    (objects : ObjMap) (t : String) (ts : List String) (st : List Int)
    (h1 : isOperator t = false) (h2 : isNumericTok t = true)
    (h3 : stollM t = none) :
    evalRPNGo vars boolVars objects (t :: ts) st = none := by
  rcases st with _ | ⟨x, _ | ⟨y, st2⟩⟩ <;>
    (rw [evalRPNGo, if_neg (by simp [h1]), if_pos h2, h3] <;> simp)

theorem evalRPNGo_true (vars : IntMap) (boolVars : BoolMap) (objects : ObjMap)
    (ts : List String) (st : List Int) :
    evalRPNGo vars boolVars objects ("true" :: ts) st =
      evalRPNGo vars boolVars objects ts (1 :: st) := by
  rcases st with _ | ⟨x, _ | ⟨y, st2⟩⟩ <;>
    (rw [evalRPNGo, if_neg (by decide), if_neg (by decide), if_pos rfl] <;>
      simp)

theorem evalRPNGo_false (vars : IntMap) (boolVars : BoolMap) (objects : ObjMap)
    (ts : List String) (st : List Int) :
    evalRPNGo vars boolVars objects ("false" :: ts) st =
      evalRPNGo vars boolVars objects ts (0 :: st) := by
  rcases st with _ | ⟨x, _ | ⟨y, st2⟩⟩ <;>
    (rw [evalRPNGo, if_neg (by decide), if_neg (by decide), if_neg (by decide),
      if_pos rfl] <;> simp)

theorem evalRPNGo_ident (vars : IntMap) (boolVars : BoolMap) (objects : ObjMap)
    (t : String) (ts : List String) (st : List Int)
    (h1 : isOperator t = false) (h2 : isNumericTok t = false)
    (h3 : t ≠ "true") (h4 : t ≠ "false") :
    evalRPNGo vars boolVars objects (t :: ts) st =
      evalRPNGo vars boolVars objects ts
        (identValue vars boolVars objects t :: st) := by
  rcases st with _ | ⟨x, _ | ⟨y, st2⟩⟩ <;>
    (rw [evalRPNGo, if_neg (by simp [h1]), if_neg (by simp [h2]),
      if_neg h3, if_neg h4] <;> simp)

theorem evalRPNGo_underflow (vars : IntMap) (boolVars : BoolMap)
    (objects : ObjMap) (t : String) (ts : List String) (st : List Int)
    (h1 : isOperator t = true) (h2 : st.length < 2) :
    evalRPNGo vars boolVars objects (t :: ts) st = some 0 := by
  rcases st with _ | ⟨x, _ | ⟨y, st2⟩⟩
  · rw [evalRPNGo, if_pos h1]; simp
  · rw [evalRPNGo, if_pos h1]; simp
  · exact absurd h2 (by simp)

theorem evalRPNGo_rpnOf (vars : IntMap) (boolVars : BoolMap)
    (objects : ObjMap) : ∀ (e : Expr), Bounded e →
    ∀ (rest : List String) (st : List Int),
    evalRPNGo vars boolVars objects (rpnOf e ++ rest) st =
    evalRPNGo vars boolVars objects rest (evalE e :: st) := by
  intro e
  induction e with
  | num n =>
    intro hb rest st
    obtain ⟨hop, _, _, _, _, _, hnum⟩ := natStr_shape n
    have hn : n ≤ 9223372036854775807 := by
      have := hb
      simp only [Bounded] at this
      exact_mod_cast this
    simp only [rpnOf, List.cons_append, List.nil_append]
    rw [evalRPNGo_num vars boolVars objects _ _ _ (n : Int) hop hnum
      (stollM_natStr n hn)]
    rfl
  | bin o l r ihl ihr =>
    intro hb rest st
    obtain ⟨hbl, hbr, _, _⟩ := hb
    simp only [rpnOf, List.append_assoc, List.cons_append, List.nil_append]
    rw [ihl hbl, ihr hbr]
    rw [evalRPNGo_op vars boolVars objects _ _ _ _ _ (isOperator_opStr o)]
    rw [applyOp_opStr]
    rfl

theorem renderStr_data (e : Expr) :
    (renderStr e).data = renderChars (renderToks e 1) := rfl

/-- The full pipeline (`tokenizeExpr` → `infixToRPN` → `evalRPN`) computes
the reference value of any rendered expression, truncated to 32 bits by the
final cast. -/
theorem evalExpressionString_render (e : Expr) (hb : Bounded e)
    (vars : IntMap) (boolVars : BoolMap) (objects : ObjMap) :
    evalExpressionString (renderStr e) vars boolVars objects =
      some (toInt32 (evalE e)) := by
  rw [evalExpressionString, renderStr_data,
    tokenizeExpr_renderChars _ (renderToks_good e 1),
    infixToRPN_renderToks, evalRPN]
  have h := evalRPNGo_rpnOf vars boolVars objects e hb [] []
  rw [List.append_nil] at h
  rw [h, evalRPNGo_nil]

theorem toInt32_of_range (v : Int) (h1 : -2147483648 ≤ v)
    (h2 : v < 2147483648) : toInt32 v = v := by
  rw [toInt32, Int.emod_eq_of_lt (by omega) (by omega)]
  omega

-- ------------------------ Claim C2 ------------------------

/-- C2 (amended).  For every expression built only from non-negative
integer literals, parentheses and the binary operators `+ - * / == != < <=
> >=` — identified with its abstract syntax tree `e` and rendered to text
by the standard precedence/left-associativity unparser `renderStr` — whose
literals and subterm values stay within the signed 64-bit range, the
evaluation pipeline (`tokenizeExpr`, `infixToRPN`, `evalRPN`) returns the
value given by standard integer arithmetic (multiplicative > additive >
comparison, left-to-right within a tier, comparisons yielding 1/0,
division by zero yielding 0) **reduced to a signed 32-bit integer by the
final `(int)` cast**; in particular it equals the standard value whenever
that value fits in 32 bits, and `"3 + 4 * 2"` evaluates to 11,
`"(3 + 4) * 2"` to 14, and `"5 / 0"` to 0. -/
theorem c2_infix_pipeline_standard_arithmetic :
    (∀ (e : Expr) (vars : IntMap) (boolVars : BoolMap) (objects : ObjMap),
      Bounded e →
      evalExpressionString (renderStr e) vars boolVars objects =
        some (toInt32 (evalE e))) ∧
    (∀ (e : Expr) (vars : IntMap) (boolVars : BoolMap) (objects : ObjMap),
      Bounded e → -2147483648 ≤ evalE e → evalE e < 2147483648 →
      evalExpressionString (renderStr e) vars boolVars objects =
        some (evalE e)) ∧
    evalExpressionString "3 + 4 * 2" [] [] [] = some 11 ∧
    evalExpressionString "(3 + 4) * 2" [] [] [] = some 14 ∧
    evalExpressionString "5 / 0" [] [] [] = some 0 := by
  refine ⟨?_, ?_, by decide, by decide, by decide⟩
  · intro e vars boolVars objects hb
    exact evalExpressionString_render e hb vars boolVars objects
  · intro e vars boolVars objects hb hlo hhi
    rw [evalExpressionString_render e hb vars boolVars objects,
      toInt32_of_range (evalE e) hlo hhi]

/-- Closed instance of `c2_infix_pipeline_standard_arithmetic` at the
expression `3 + 4 * 2`. -/
theorem c2_infix_pipeline_standard_arithmetic_witness :
    Bounded (Expr.bin .add (.num 3) (.bin .mul (.num 4) (.num 2))) ∧
    evalExpressionString
      (renderStr (Expr.bin .add (.num 3) (.bin .mul (.num 4) (.num 2))))
      [] [] [] =
      some (toInt32 (evalE (Expr.bin .add (.num 3) (.bin .mul (.num 4) (.num 2))))) :=
  ⟨by decide,
    c2_infix_pipeline_standard_arithmetic.1
      (Expr.bin .add (.num 3) (.bin .mul (.num 4) (.num 2))) [] [] []
      (by decide)⟩

/-- C2 counterexample.  `"3 + -5"` is an expression string built only from
the integer literals `3` and `-5` and the binary operator `+`, yet the
pipeline evaluates it to 0, not to the standard value −2: the expression
tokenizer's single-character branch for `"+-*/()<>"` fires on `-` before
its negative-literal branch can, so the string tokenizes as
`3 + - 5`, whose postfix form `3 + 5 -` underflows the operand stack and
silently yields 0.  The claim's universal statement is therefore false as
written. -/
theorem c2_counterexample_negative_literal :
    evalExpressionString "3 + -5" [] [] [] = some 0 ∧
    (3 : Int) + -5 = -2 ∧ (0 : Int) ≠ -2 := by
  refine ⟨by decide, by decide, by decide⟩

-- ------------------------ Claim C7 ------------------------

/-- C7.  For every dotted reference `obj.field` appearing in an evaluated
expression (a non-operator, non-numeric, non-boolean token containing a
dot, at any position in the postfix stream and over any stack), the
evaluator pushes the current value of that object's field, and 0 when the
object or the field is absent; no error path exists (the equation shows
the step never produces the exception result `none`). -/
theorem c7_dotted_reference_defaults_to_zero
    (vars : IntMap) (boolVars : BoolMap) (objects : ObjMap) (t : String)
    (h1 : isOperator t = false) (h2 : isNumericTok t = false)
    (h3 : t ≠ "true") (h4 : t ≠ "false") (h5 : (splitDot t).2 ≠ "") :
    ∀ (ts : List String) (st : List Int),
    evalRPNGo vars boolVars objects (t :: ts) st =
      evalRPNGo vars boolVars objects ts
        ((match lookupM objects (splitDot t).1 with
          | some flds => (lookupM flds (splitDot t).2).getD 0
          | none => 0) :: st) := by
  intro ts st
  rw [evalRPNGo_ident vars boolVars objects t ts st h1 h2 h3 h4]
  rw [identValue, if_pos h5]

/-- Closed instance of `c7_dotted_reference_defaults_to_zero`: the token
`hero.hp` over an object table where `hero.hp = 9`, and the final values
of the three evaluations (present, missing field, missing object). -/
theorem c7_dotted_reference_defaults_to_zero_witness :
    (splitDot "hero.hp").2 ≠ "" ∧
    evalRPNGo [] [] [("hero", [("hp", 9)])] ["hero.hp"] [] =
      evalRPNGo [] [] [("hero", [("hp", 9)])] [] [9] ∧
    evalRPN ["hero.hp"] [] [] [("hero", [("hp", 9)])] = some 9 ∧
    evalRPN ["hero.mp"] [] [] [("hero", [("hp", 9)])] = some 0 ∧
    evalRPN ["ghost.hp"] [] [] [("hero", [("hp", 9)])] = some 0 :=
  ⟨by decide,
    by
      have h := c7_dotted_reference_defaults_to_zero [] []
        [("hero", [("hp", 9)])] "hero.hp" (by decide) (by decide)
        (by decide) (by decide) (by decide) [] []
      exact h.trans (by decide),
    by decide, by decide, by decide⟩

-- ------------------------ Claim C8 ------------------------

/-- C8 (amended).  Postfix evaluation yields an integer without error on
every token sequence **whose numeric tokens all parse within `stoll`'s
signed 64-bit range**: an operator reached with fewer than two stack
operands makes the whole evaluation return 0 at once, and an empty final
stack yields 0.  (Totality over *every* token sequence, as the claim
states it, is false: see the counterexample.) -/
theorem c8_postfix_evaluation_total_for_parsable_numerals :
    (∀ (rpn : List String) (vars : IntMap) (boolVars : BoolMap)
        (objects : ObjMap),
      (∀ t ∈ rpn, isNumericTok t = true → (stollM t).isSome) →
      ∃ v, evalRPN rpn vars boolVars objects = some v) ∧
    (∀ (vars : IntMap) (boolVars : BoolMap) (objects : ObjMap) (t : String)
        (ts : List String) (st : List Int),
      isOperator t = true → st.length < 2 →
      evalRPNGo vars boolVars objects (t :: ts) st = some 0) ∧
    (∀ (vars : IntMap) (boolVars : BoolMap) (objects : ObjMap),
      evalRPN [] vars boolVars objects = some 0) := by
  refine ⟨?_, evalRPNGo_underflow, fun _ _ _ => rfl⟩
  intro rpn vars boolVars objects hok
  suffices h : ∀ st, ∃ v, evalRPNGo vars boolVars objects rpn st = some v by
    exact h []
  induction rpn with
  | nil =>
    intro st
    rw [evalRPNGo_nil]
    exact ⟨_, rfl⟩
  | cons t ts ih =>
    have ihts := fun st => ih (fun u hu hn => hok u (by simp [hu]) hn) st
    intro st
    by_cases hop : isOperator t = true
    · rcases st with _ | ⟨x, _ | ⟨y, st2⟩⟩
      · exact ⟨0, evalRPNGo_underflow _ _ _ _ _ _ hop (by simp)⟩
      · exact ⟨0, evalRPNGo_underflow _ _ _ _ _ _ hop (by simp)⟩
      · rw [evalRPNGo_op _ _ _ _ _ _ _ _ hop]
        exact ihts _
    · have hop' : isOperator t = false := by
        rw [Bool.eq_false_iff]; exact hop
      by_cases hnum : isNumericTok t = true
      · have hsome := hok t (by simp) hnum
        obtain ⟨v0, hv0⟩ := Option.isSome_iff_exists.mp hsome
        rw [evalRPNGo_num _ _ _ _ _ _ _ hop' hnum hv0]
        exact ihts _
      · have hnum' : isNumericTok t = false := by
          rw [Bool.eq_false_iff]; exact hnum
        by_cases ht : t = "true"
        · subst ht
          rw [evalRPNGo_true]
          exact ihts _
        · by_cases hf : t = "false"
          · subst hf
            rw [evalRPNGo_false]
            exact ihts _
          · rw [evalRPNGo_ident _ _ _ _ _ _ hop' hnum' ht hf]
            exact ihts _

/-- Closed instance of
`c8_postfix_evaluation_total_for_parsable_numerals`: the malformed
sequences `5 +` (operator underflow) and the empty sequence both evaluate
to 0. -/
theorem c8_postfix_evaluation_total_witness :
    isOperator "+" = true ∧ ([(5 : Int)] : List Int).length < 2 ∧
    evalRPNGo [] [] [] ["+"] [5] = some 0 ∧
    evalRPN [] [] [] [] = some 0 :=
  ⟨by decide, by decide,
    c8_postfix_evaluation_total_for_parsable_numerals.2.1 [] [] [] "+" [] [5]
      (by decide) (by decide),
    c8_postfix_evaluation_total_for_parsable_numerals.2.2 [] [] []⟩

/-- C8 counterexample.  Postfix evaluation is *not* total over every token
sequence: the numeric token `99999999999999999999` exceeds the signed
64-bit range, so the un-guarded `stoll` call in `evalRPN` throws
`std::out_of_range` (modelled by `none`) instead of silently yielding an
integer. -/
theorem c8_counterexample_stoll_overflow :
    evalRPN ["99999999999999999999"] [] [] [] = none := by
  decide

-- ------------------------ Map lemmas ------------------------

theorem lookupM_insertM_self {α : Type} (m : List (String × α)) (k : String)
    (v : α) : lookupM (insertM m k v) k = some v := by
  induction m with
  | nil => simp [insertM, lookupM]
  | cons kv m ih =>
    by_cases hk : kv.1 = k
    · rw [insertM]
      rw [if_pos hk, lookupM, if_pos hk]
    · rw [insertM]
      rw [if_neg hk, lookupM, if_neg hk]
      exact ih

theorem lookupM_insertM_ne {α : Type} (m : List (String × α)) (k k' : String)
    (v : α) (h : k' ≠ k) : lookupM (insertM m k v) k' = lookupM m k' := by
  induction m with
  | nil =>
    rw [insertM]
    rw [show lookupM ([] : List (String × α)) k' = none from rfl]
    rw [lookupM, if_neg (fun he => h he.symm)]
    rfl
  | cons kv m ih =>
    by_cases hk : kv.1 = k
    · rw [insertM, if_pos hk, lookupM, lookupM]
      have : kv.1 = k' ↔ False := by
        constructor
        · intro he; exact h (by rw [← he, hk])
        · intro f; exact f.elim
      rw [if_neg (by rw [this]; exact id), if_neg (by rw [this]; exact id)]
    · rw [insertM, if_neg hk, lookupM, lookupM]
      by_cases hk' : kv.1 = k'
      · rw [if_pos hk', if_pos hk']
      · rw [if_neg hk', if_neg hk']
        exact ih

-- ------------------ Shared string-splitting lemmas ------------------

theorem findIdxM_append_none (p : Char → Bool) :
    ∀ (A B : List Char), (∀ a ∈ A, p a = false) →
    findIdxM p (A ++ B) = (findIdxM p B).map (· + A.length) := by
  intro A
  induction A with
  | nil =>
    intro B _
    simp only [List.nil_append, List.length_nil]
    cases findIdxM p B <;> simp
  | cons a A ih =>
    intro B h
    rw [List.cons_append, findIdxM, if_neg (by simp [h a (by simp)]),
      ih B (fun x hx => h x (by simp [hx]))]
    cases findIdxM p B
    · simp
    · simp
      omega

theorem findIdxM_cons_pos (p : Char → Bool) (c : Char) (cs : List Char)
    (h : p c = true) : findIdxM p (c :: cs) = some 0 := by
  rw [findIdxM, if_pos h]

theorem string_mk_data (s : String) : String.mk s.data = s := rfl

/-- `splitDot` on `inst ++ "." ++ field` recovers `(inst, field)` whenever
`inst` itself contains no dot. -/
theorem splitDot_concat (inst field : String)
    (h : ∀ c ∈ inst.data, c ≠ '.') :
    splitDot (inst ++ "." ++ field) = (inst, field) := by
  have hdata : (inst ++ "." ++ field).data =
      inst.data ++ ('.' :: field.data) := by
    rw [String.data_append, String.data_append]
    rw [show (("." : String).data) = ['.'] from rfl]
    rw [List.append_assoc]
    rfl
  rw [splitDot, hdata]
  rw [findIdxM_append_none (fun c => c = '.') inst.data ('.' :: field.data)
    (by intro a ha; simp [h a ha])]
  rw [findIdxM_cons_pos _ _ _ (by simp)]
  have hms : (some 0).map (· + inst.data.length) = some inst.data.length := by
    simp
  rw [hms]
  show (String.mk ((inst.data ++ '.' :: field.data).take inst.data.length),
    String.mk ((inst.data ++ '.' :: field.data).drop (inst.data.length + 1))) =
    (inst, field)
  rw [List.take_left' rfl]
  have hdrop : (inst.data ++ ('.' :: field.data)).drop (inst.data.length + 1) =
      field.data := by
    have : inst.data ++ ('.' :: field.data) =
        (inst.data ++ ['.']) ++ field.data := by simp
    rw [this, List.drop_left' (by simp)]
  rw [hdrop, string_mk_data, string_mk_data]

-- ------------------------ Claim C10 ------------------------

/-- C10.  Executing `set obj.field = expr` at node level when no instance
named `obj` exists does not fail and does not leave the state unchanged:
`objects[inst][field] = val` silently creates an entry for `obj` in the
shared object table holding only the one field (with the expression's
value), and the instance→class table is untouched (the equation's
right-hand context changes only `objects`), even though `obj` was never
instantiated. -/
theorem c10_set_dotted_creates_untracked_object
    (fuel : Nat) (ctx : RunCtx) (inst field expr : String) (v : Int)
    (rest : List Action)
    (hmiss : lookupM ctx.prog.objects inst = none)
    (hdot : ∀ c ∈ inst.data, c ≠ '.') (hf : field ≠ "")
    (hev : evalExpressionString expr ctx.vars ctx.boolVars ctx.prog.objects =
      some v) :
    runNodeActions fuel (Action.set (inst ++ "." ++ field) expr :: rest) ctx =
      runNodeActions fuel rest { ctx with prog := { ctx.prog with
        objects := insertM ctx.prog.objects inst [(field, v)] } } ∧
    lookupM (insertM ctx.prog.objects inst [(field, v)]) inst =
      some [(field, v)] := by
  have hsd := splitDot_concat inst field hdot
  constructor
  · rw [runNodeActions, hev, Option.some_bind]
    rw [setStepNode]
    simp only [hsd]
    rw [if_pos hf]
    rw [show osetField ctx.prog.objects inst field v =
      insertM ctx.prog.objects inst [(field, v)] by rw [osetField, hmiss]]
  · exact lookupM_insertM_self ctx.prog.objects inst [(field, v)]


/-- Closed instance of `c10_set_dotted_creates_untracked_object`: a node
action `set ghost.hp = 7` in a program with no objects at all creates
`ghost` with the single field `hp = 7` and leaves the instance→class table
empty. -/
theorem c10_set_dotted_creates_untracked_object_witness :
    lookupM (({} : Prog)).objects "ghost" = none ∧
    (runNodeActions 1 [Action.set ("ghost" ++ "." ++ "hp") "7"]
        ⟨{}, [], [], "p", []⟩).map
      (fun r => (lookupM r.1.prog.objects "ghost", r.1.prog.instanceClass)) =
      some (some [("hp", 7)], []) := by
  refine ⟨rfl, ?_⟩
  have h := c10_set_dotted_creates_untracked_object 1 ⟨{}, [], [], "p", []⟩
    "ghost" "hp" "7" 7 [] rfl (by decide) (by decide) (by decide)
  rw [h.1]
  decide

-- ------------------------ Claim C4 ------------------------

/-- C4.  A node action `if (cond) goto A else goto B;` evaluates the
condition against the current environment: non-zero transitions to `A`
immediately, aborting the remaining actions of this visit; zero with an
else-target transitions to `B`; zero with no else-target (the empty
string, as the parser encodes an absent `else`) falls through to the rest
of the action list.  In particular `if (hp <= 0) goto Dead else goto
Alive;` (condition text `hp<=0`, as the parser concatenates it) transitions
to `Dead` when `hp = 0` and to `Alive` when `hp = 5`. -/
theorem c4_if_goto_else_transitions
    (fuel : Nat) (cond A B : String) (rest : List Action) (ctx : RunCtx)
    (r : Int)
    (hev : evalExpressionString cond ctx.vars ctx.boolVars ctx.prog.objects =
      some r) :
    (r ≠ 0 →
      runNodeActions fuel (Action.ifGoto cond A B :: rest) ctx =
        some (ctx, NodeExit.jumped A)) ∧
    (r = 0 → B ≠ "" →
      runNodeActions fuel (Action.ifGoto cond A B :: rest) ctx =
        some (ctx, NodeExit.jumped B)) ∧
    (r = 0 → B = "" →
      runNodeActions fuel (Action.ifGoto cond A B :: rest) ctx =
        runNodeActions fuel rest ctx) ∧
    (runNodeActions 1 [Action.ifGoto "hp<=0" "Dead" "Alive"]
        ⟨{}, [("hp", 0)], [], "p", []⟩).map (fun x => x.2) =
      some (NodeExit.jumped "Dead") ∧
    (runNodeActions 1 [Action.ifGoto "hp<=0" "Dead" "Alive"]
        ⟨{}, [("hp", 5)], [], "p", []⟩).map (fun x => x.2) =
      some (NodeExit.jumped "Alive") := by
  refine ⟨?_, ?_, ?_, by decide, by decide⟩
  · intro hr
    rw [runNodeActions, hev, Option.some_bind]
    exact if_pos hr
  · intro hr hB
    subst hr
    rw [runNodeActions, hev, Option.some_bind]
    exact (if_neg (by simp)).trans (if_pos hB)
  · intro hr hB
    subst hr
    subst hB
    rw [runNodeActions, hev, Option.some_bind]
    exact (if_neg (by simp)).trans (if_neg (by simp))

/-- Closed instance of `c4_if_goto_else_transitions`: with `hp = 0` the
condition `hp<=0` evaluates to 1 and the action jumps to `Dead`, aborting
the rest of the list. -/
theorem c4_if_goto_else_transitions_witness :
    evalExpressionString "hp<=0" [("hp", 0)] [] [] = some 1 ∧
    runNodeActions 1
        (Action.ifGoto "hp<=0" "Dead" "Alive" :: [Action.goto "Q"])
        ⟨{}, [("hp", 0)], [], "p", []⟩ =
      some (⟨{}, [("hp", 0)], [], "p", []⟩, NodeExit.jumped "Dead") :=
  ⟨by decide,
    (c4_if_goto_else_transitions 1 "hp<=0" "Dead" "Alive" [Action.goto "Q"]
      ⟨{}, [("hp", 0)], [], "p", []⟩ 1 (by decide)).1 (by decide)⟩

-- ------------------------ Claim C1 ------------------------

/-- C1 (the code contradicts the claim; the claim matches the evident
intent).  The parser captures every method-body statement by concatenating
token texts with no separators and tagging the result `STMT`
(`captureStmt`): the body `set health = health - amount;` is stored as the
raw statement `sethealth=health-amount`.  The statement executor
recognises only `instance.method(...)` calls and `print`; it silently
ignores this string, so `hero.attack(3)` changes no state at all —
`hero.health` stays 50 instead of becoming 47.  (The interpreter even
contains a `SET`-with-`thisInstance` branch built precisely for in-method
field assignment, which the parser's encoding makes unreachable; the
separately-evaluated `executeActionsWithContext` call below shows that a
`SET` action of the same content *would* produce 47.) -/
theorem c1_method_body_set_is_silently_ignored :
    captureStmt ["set", "health", "=", "health", "-", "amount"] =
      "sethealth=health-amount" ∧
    (executeMethod 10
        { classes := [("Hero",
            { name := "Hero"
              fields := [("health", 50)]
              methods := [("attack",
                [Action.stmt (captureStmt
                  ["set", "health", "=", "health", "-", "amount"])])]
              methodParams := [("attack", ["amount"])] })]
          objects := [("hero", [("health", 50)]), ("other", [("health", 50)])]
          instanceClass := [("hero", "Hero"), ("other", "Hero")] }
        "hero" "attack" [3] []).map
      (fun res => (lookupM ((lookupM res.1.objects "hero").getD []) "health",
        lookupM ((lookupM res.1.objects "other").getD []) "health", res.2)) =
      some (some 50, some 50, []) ∧
    (50 : Int) ≠ 50 - 3 ∧
    (executeActionsWithContext (fun p _ _ _ o => some (p, o))
        [Action.set "health" "health-amount"]
        { objects := [("hero", [("health", 50)])] }
        [("amount", 3), ("health", 50)] [] [("hero", [("health", 50)])]
        "hero" []).map
      (fun res => lookupM ((lookupM res.objects "hero").getD []) "health") =
      some (some 47) := by
  refine ⟨by decide, by decide, by decide, by decide⟩


-- ------------------------ Claim C3 ------------------------

/-- C3 counterexample.  `runProgram` copies the global integer and boolean
tables into run-local maps (`vars = prog.vars`) while aliasing the object
table by reference, so a node-level `set` of a global is *not* applied to
the shared program state.  Concretely: the node actions
`set x = 5; hero.peek();` — where `peek`'s body is the raw statement
`print(x)` — print `false` (the method call seeds its scope from
`prog.vars`, where `x` is still 0) although the run-local table holds
`x = 5`.  Had the write been applied in place and read back by the later
method call, as the claim states, the output would have been `true`. -/
theorem c3_counterexample_global_set_invisible_to_method :
    (runNodeActions 2 [Action.set "x" "5", Action.stmt "hero.peek()"]
        ⟨{ vars := [("x", 0)]
           classes := [("C",
             { name := "C"
               methods := [("peek",
                 [Action.stmt (captureStmt ["print", "(", "x", ")"])])]
               methodParams := [("peek", [])] })]
           objects := [("hero", [])]
           instanceClass := [("hero", "C")] },
         [("x", 0)], [], "p", []⟩).map
      (fun r => (r.1.out, lookupM r.1.vars "x", lookupM r.1.prog.vars "x")) =
      some (["false"], some 5, some 0) ∧
    ("false" : String) ≠ "true" := by
  refine ⟨by decide, by decide⟩

/-- C3 (amended).  What is and is not shared: (a) a node-level `set` of a
dotted `obj.field` target mutates the single shared object table in place,
so every later action of the run (including method calls, which read
`prog.objects`) sees the new value; (b) a node-level `set` of a bare
global name is applied to the **run-local copy** of the global tables made
at the top of `runProgram` — later node-level evaluations read it back
(the remaining actions run in the updated context), but `prog`'s own
tables are untouched, which is exactly what the counterexample observes. -/
theorem c3_object_mutations_shared_global_sets_run_local
    (fuel : Nat) (ctx : RunCtx) (rest : List Action) (expr : String) (v : Int)
    (inst field name : String)
    (hdot : ∀ c ∈ inst.data, c ≠ '.') (hf : field ≠ "")
    (hbare : (splitDot name).2 = "")
    (hnb : hasM ctx.boolVars name = false)
    (hev : evalExpressionString expr ctx.vars ctx.boolVars ctx.prog.objects =
      some v) :
    runNodeActions fuel (Action.set (inst ++ "." ++ field) expr :: rest) ctx =
      runNodeActions fuel rest { ctx with prog := { ctx.prog with
        objects := osetField ctx.prog.objects inst field v } } ∧
    runNodeActions fuel (Action.set name expr :: rest) ctx =
      runNodeActions fuel rest { ctx with vars := insertM ctx.vars name v } ∧
    lookupM (insertM ctx.vars name v) name = some v := by
  refine ⟨?_, ?_, lookupM_insertM_self ctx.vars name v⟩
  · rw [runNodeActions, hev, Option.some_bind]
    rw [setStepNode]
    simp only [splitDot_concat inst field hdot]
    rw [if_pos hf]
  · rw [runNodeActions, hev, Option.some_bind]
    rw [setStepNode]
    rw [if_neg (by simp [hbare]), if_neg (by simp [hnb])]

/-- Closed instance of `c3_object_mutations_shared_global_sets_run_local`:
`set o.f = 9` updates the shared object table; `set y = 9` updates only
the run-local integer table. -/
theorem c3_object_mutations_shared_global_sets_run_local_witness :
    (runNodeActions 1 [Action.set ("o" ++ "." ++ "f") "9"]
        ⟨{ objects := [("o", [("f", 1)])] }, [], [], "p", []⟩).map
      (fun r => lookupM r.1.prog.objects "o") = some (some [("f", 9)]) ∧
    (runNodeActions 1 [Action.set "y" "9"]
        ⟨{ objects := [("o", [("f", 1)])] }, [], [], "p", []⟩).map
      (fun r => (lookupM r.1.vars "y", r.1.prog.vars)) =
      some (some 9, []) := by
  have h := c3_object_mutations_shared_global_sets_run_local 1
    ⟨{ objects := [("o", [("f", 1)])] }, [], [], "p", []⟩ [] "9" 9
    "o" "f" "y" (by decide) (by decide) (by decide) (by decide) (by decide)
  refine ⟨?_, ?_⟩
  · rw [h.1]
    decide
  · rw [h.2.1]
    decide

-- ---------------------------- C6 ----------------------------

/-- A prefix of the action list that falls through composes with the
remaining actions: running `pre ++ rest` first runs `pre` to its final
context and then continues with `rest` there. -/
theorem runNodeActions_append_fell (fuel : Nat) :
    ∀ (pre rest : List Action) (ctx ctx' : RunCtx),
    runNodeActions fuel pre ctx = some (ctx', NodeExit.fell) →
    runNodeActions fuel (pre ++ rest) ctx = runNodeActions fuel rest ctx' := by
  intro pre
  induction pre with
  | nil =>
    intro rest ctx ctx' h
    simp only [runNodeActions, Option.some.injEq, Prod.mk.injEq, and_true] at h
    rw [List.nil_append, h]
  | cons a pre ih =>
    intro rest ctx ctx' h
    cases a with
    | set name expr =>
      rw [List.cons_append, runNodeActions]
      rw [runNodeActions] at h
      cases hev : evalExpressionString expr ctx.vars ctx.boolVars
          ctx.prog.objects with
      | none => rw [hev] at h; simp at h
      | some v =>
        rw [hev, Option.some_bind] at h
        rw [Option.some_bind]
        exact ih rest _ ctx' h
    | signal name expr =>
      rw [List.cons_append, runNodeActions]
      rw [runNodeActions] at h
      cases hev : evalExpressionString expr ctx.vars ctx.boolVars
          ctx.prog.objects with
      | none => rw [hev] at h; simp at h
      | some v =>
        rw [hev, Option.some_bind] at h
        rw [Option.some_bind]
        exact ih rest _ ctx' h
    | ifGoto cond target elseT =>
      rw [List.cons_append, runNodeActions]
      rw [runNodeActions] at h
      cases hev : evalExpressionString cond ctx.vars ctx.boolVars
          ctx.prog.objects with
      | none => rw [hev] at h; simp at h
      | some r =>
        rw [hev, Option.some_bind] at h
        rw [Option.some_bind]
        by_cases hr : r ≠ 0
        · rw [if_pos hr] at h
          simp at h
        · rw [if_neg hr] at h ⊢
          by_cases he : elseT ≠ ""
          · rw [if_pos he] at h
            simp at h
          · rw [if_neg he] at h ⊢
            exact ih rest ctx ctx' h
    | goto target =>
      rw [runNodeActions] at h
      simp at h
    | ende =>
      rw [runNodeActions] at h
      simp at h
    | stmt s =>
      rw [List.cons_append, runNodeActions]
      rw [runNodeActions] at h
      cases hst : execNodeStmt fuel s ctx with
      | none => rw [hst] at h; simp at h
      | some ctx1 =>
        rw [hst, Option.some_bind] at h
        rw [Option.some_bind]
        exact ih rest ctx1 ctx' h
    | showA text =>
      rw [List.cons_append, runNodeActions]
      rw [runNodeActions] at h
      exact ih rest _ ctx' h

/-- On a node with no choices, `visitNode` is exactly the action loop with
its exit translated. -/
theorem visitNode_no_choices (fuel : Nat) (node : Node) (ctx : RunCtx)
    (inputs : List (Option Int)) (hc : node.choices = []) :
    visitNode fuel node ctx inputs =
      (runNodeActions fuel node.actions
        (if node.text ≠ "" then
          { ctx with out := ctx.out ++ [renderNodeText ctx node.text] }
        else ctx)).map
        (fun r => match r.2 with
          | NodeExit.jumped t => (r.1, inputs, VisitResult.next t)
          | NodeExit.ended => (r.1, inputs, VisitResult.endedRun)
          | NodeExit.fell =>
            ({ r.1 with out := r.1.out ++ ["[End of Conversation]"] }, inputs,
              VisitResult.noEdge)) := by
  unfold visitNode
  rw [hc]
  rw [if_neg (by simp)]

/-- C6: executing an `End` action halts the entire run immediately.
(1) `END` at the head of the remaining action list stops the visit with
exit `ended` (printing `[Dialogue ended]`) no matter what actions follow;
(2) hence at any position of a node's action list, once the preceding
actions fall through to it; (3) a choice-free node whose actions end this
way makes the whole visit report `endedRun`; (4) the run loop on such a
visit returns the `ended` termination at once, visiting no further node
regardless of the remaining step budget. -/
theorem c6_end_action_halts_run :
    (∀ (fuel : Nat) (rest : List Action) (ctx : RunCtx),
      runNodeActions fuel (Action.ende :: rest) ctx =
        some ({ ctx with out := ctx.out ++ ["[Dialogue ended]"] },
          NodeExit.ended)) ∧
    (∀ (fuel : Nat) (pre rest : List Action) (ctx ctx' : RunCtx),
      runNodeActions fuel pre ctx = some (ctx', NodeExit.fell) →
      runNodeActions fuel (pre ++ Action.ende :: rest) ctx =
        some ({ ctx' with out := ctx'.out ++ ["[Dialogue ended]"] },
          NodeExit.ended)) ∧
    (∀ (fuel : Nat) (node : Node) (ctx ctx2 : RunCtx)
        (inputs : List (Option Int)),
      node.choices = [] →
      runNodeActions fuel node.actions
          (if node.text ≠ "" then
            { ctx with out := ctx.out ++ [renderNodeText ctx node.text] }
          else ctx) = some (ctx2, NodeExit.ended) →
      visitNode fuel node ctx inputs = some (ctx2, inputs, VisitResult.endedRun)) ∧
    (∀ (steps fuel : Nat) (ctx ctx2 : RunCtx) (current : String)
        (inputs ins2 : List (Option Int)) (node : Node),
      lookupM ctx.prog.nodes current = some node →
      visitNode fuel node ctx inputs = some (ctx2, ins2, VisitResult.endedRun) →
      runLoop (steps + 1) fuel ctx current inputs =
        some (ctx2, TermKind.ended)) := by
  refine ⟨?_, ?_, ?_, ?_⟩
  · intro fuel rest ctx
    rw [runNodeActions]
  · intro fuel pre rest ctx ctx' h
    rw [runNodeActions_append_fell fuel pre (Action.ende :: rest) ctx ctx' h,
      runNodeActions]
  · intro fuel node ctx ctx2 inputs hc ha
    rw [visitNode_no_choices fuel node ctx inputs hc, ha]
    rfl
  · intro steps fuel ctx ctx2 current inputs ins2 node hl hv
    rw [runLoop, hl, Option.elim_some, hv, Option.some_bind]

/-- Closed instance of `c6_end_action_halts_run`: a node whose actions are
`set x = 1; END; goto b` halts the run with only the `set` applied and the
`goto` never taken, with plenty of loop steps left. -/
theorem c6_end_action_halts_run_witness :
    runLoop 9 1
        ⟨{ nodes := [("a", { actions :=
            [Action.set "x" "1", Action.ende, Action.goto "b"] }),
          ("b", { actions := [Action.goto "a"] })] }, [], [], "p", []⟩
        "a" [] =
      some (⟨{ nodes := [("a", { actions :=
            [Action.set "x" "1", Action.ende, Action.goto "b"] }),
          ("b", { actions := [Action.goto "a"] })] }, [("x", 1)], [], "p",
          ["[Dialogue ended]"]⟩, TermKind.ended) := by
  have h := c6_end_action_halts_run
  exact h.2.2.2 8 1
    ⟨{ nodes := [("a", { actions :=
        [Action.set "x" "1", Action.ende, Action.goto "b"] }),
      ("b", { actions := [Action.goto "a"] })] }, [], [], "p", []⟩
    ⟨{ nodes := [("a", { actions :=
        [Action.set "x" "1", Action.ende, Action.goto "b"] }),
      ("b", { actions := [Action.goto "a"] })] }, [("x", 1)], [], "p",
      ["[Dialogue ended]"]⟩
    "a" [] []
    { actions := [Action.set "x" "1", Action.ende, Action.goto "b"] }
    (by decide)
    (h.2.2.1 1
      { actions := [Action.set "x" "1", Action.ende, Action.goto "b"] }
      ⟨{ nodes := [("a", { actions :=
          [Action.set "x" "1", Action.ende, Action.goto "b"] }),
        ("b", { actions := [Action.goto "a"] })] }, [], [], "p", []⟩
      ⟨{ nodes := [("a", { actions :=
          [Action.set "x" "1", Action.ende, Action.goto "b"] }),
        ("b", { actions := [Action.goto "a"] })] }, [("x", 1)], [], "p",
        ["[Dialogue ended]"]⟩
      [] (by decide) (by decide))

-- ---------------------------- C5 ----------------------------

/-- The choice loop consumes any run of rejected inputs (reprompting each
time) and then behaves as if started on the remaining inputs: no retry
limit, no escape to the action list. -/
theorem chooseFrom_skips_invalid (choices : List Choice) :
    ∀ (bad rest : List (Option Int)) (out : List String),
    (∀ i ∈ bad, invalidInput choices i = true) →
    ∃ out1, chooseFrom choices (bad ++ rest) out = chooseFrom choices rest out1 := by
  intro bad
  induction bad with
  | nil =>
    intro rest out _
    exact ⟨out, rfl⟩
  | cons i bad ih =>
    intro rest out h
    have hi := h i (by simp)
    cases i with
    | none =>
      rw [List.cons_append, chooseFrom]
      exact ih rest _ (fun j hj => h j (by simp [hj]))
    | some sel =>
      have hf : choices.find? (fun c => c.id = sel) = none := by
        simpa [invalidInput] using hi
      rw [List.cons_append, chooseFrom, hf, Option.elim_none]
      exact ih rest _ (fun j hj => h j (by simp [hj]))

/-- C5: on a node with at least one choice the action list is dead code
and the choice dialogue decides everything.
(1) the visit result is the same whatever the node's action list holds;
(2) any run of invalid inputs (failed reads or unmatched ids) only
reprompts, leaving the loop waiting on the remaining inputs;
(3) `find?` on the declared choice list returns the **first** choice
carrying the entered id;
(4) a valid id transitions unconditionally to that choice's target,
leaving the program, the variable tables and the player untouched
(only output grows). -/
theorem c5_choices_preempt_actions :
    (∀ (fuel : Nat) (node : Node) (ctx : RunCtx)
        (inputs : List (Option Int)) (acts : List Action),
      node.choices ≠ [] →
      visitNode fuel { node with actions := acts } ctx inputs =
        visitNode fuel node ctx inputs) ∧
    (∀ (choices : List Choice) (bad rest : List (Option Int))
        (out : List String),
      (∀ i ∈ bad, invalidInput choices i = true) →
      ∃ out1, chooseFrom choices (bad ++ rest) out =
        chooseFrom choices rest out1) ∧
    (∀ (pre post : List Choice) (c : Choice) (sel : Int),
      (∀ c' ∈ pre, ¬ (c'.id = sel)) → c.id = sel →
      (pre ++ c :: post).find? (fun ch => ch.id = sel) = some c) ∧
    (∀ (fuel : Nat) (node : Node) (ctx : RunCtx) (sel : Int)
        (rest : List (Option Int)) (c : Choice),
      node.choices ≠ [] →
      node.choices.find? (fun ch => ch.id = sel) = some c →
      ∃ out', visitNode fuel node ctx (some sel :: rest) =
        some ({ ctx with out := out' }, rest, VisitResult.next c.target)) := by
  refine ⟨?_, chooseFrom_skips_invalid, ?_, ?_⟩
  · intro fuel node ctx inputs acts hne
    have hni : ¬ node.choices.isEmpty := by
      simpa [List.isEmpty_iff] using hne
    by_cases ht : node.text ≠ ""
    · simp only [visitNode]
      rw [if_pos ht, if_pos hni, if_pos hni]
    · simp only [visitNode]
      rw [if_neg ht, if_pos hni, if_pos hni]
  · intro pre
    induction pre with
    | nil =>
      intro post c sel _ hc
      rw [List.nil_append]
      exact List.find?_cons_of_pos _ (by simp [hc])
    | cons a pre ih =>
      intro post c sel h hc
      rw [List.cons_append]
      rw [List.find?_cons_of_neg _ (by simp [h a (by simp)])]
      exact ih post c sel (fun x hx => h x (by simp [hx])) hc
  · intro fuel node ctx sel rest c hne hfind
    have hni : ¬ node.choices.isEmpty := by
      simpa [List.isEmpty_iff] using hne
    by_cases ht : node.text ≠ ""
    · simp only [visitNode]
      rw [if_pos ht, if_pos hni, chooseFrom, hfind, Option.elim_some]
      exact ⟨_, rfl⟩
    · simp only [visitNode]
      rw [if_neg ht, if_pos hni, chooseFrom, hfind, Option.elim_some]
      exact ⟨_, rfl⟩

/-- Closed instance of `c5_choices_preempt_actions`: on a node with
choices `[1]→a, [2]→b, [2]→c` and a `goto trap; END` action list, input
`2` transitions to `b` (the first id-2 choice), the action list has no
effect at all, and the program and variable tables are unchanged. -/
theorem c5_choices_preempt_actions_witness :
    (visitNode 1
        { text := "t", choices := [⟨1, "x", "a"⟩, ⟨2, "y", "b"⟩, ⟨2, "z", "c"⟩],
          actions := [Action.goto "trap", Action.ende] }
        ⟨{ vars := [("g", 7)] }, [("g", 7)], [], "p", []⟩ [some 2] =
      visitNode 1
        { text := "t", choices := [⟨1, "x", "a"⟩, ⟨2, "y", "b"⟩, ⟨2, "z", "c"⟩],
          actions := [] }
        ⟨{ vars := [("g", 7)] }, [("g", 7)], [], "p", []⟩ [some 2]) ∧
    ((visitNode 1
        { text := "t", choices := [⟨1, "x", "a"⟩, ⟨2, "y", "b"⟩, ⟨2, "z", "c"⟩],
          actions := [Action.goto "trap", Action.ende] }
        ⟨{ vars := [("g", 7)] }, [("g", 7)], [], "p", []⟩ [some 2]).map
      (fun r => (r.1.prog, r.1.vars, r.1.boolVars, r.2.1, r.2.2)) =
      some ({ vars := [("g", 7)] }, [("g", 7)], [], [],
        VisitResult.next "b")) := by
  have h := c5_choices_preempt_actions
  constructor
  · exact h.1 1
      { text := "t", choices := [⟨1, "x", "a"⟩, ⟨2, "y", "b"⟩, ⟨2, "z", "c"⟩],
        actions := [] }
      ⟨{ vars := [("g", 7)] }, [("g", 7)], [], "p", []⟩ [some 2]
      [Action.goto "trap", Action.ende] (by decide)
  · obtain ⟨o, ho⟩ := h.2.2.2 1
      { text := "t", choices := [⟨1, "x", "a"⟩, ⟨2, "y", "b"⟩, ⟨2, "z", "c"⟩],
        actions := [Action.goto "trap", Action.ende] }
      ⟨{ vars := [("g", 7)] }, [("g", 7)], [], "p", []⟩ 2 [] ⟨2, "y", "b"⟩
      (by decide) (by decide)
    rw [ho]
    rfl

-- ---------------------------- C9 ----------------------------

/-- `trim` leaves a string alone when neither end is whitespace. -/
theorem trimChars_nospace_ends (a b : Char) (l : List Char)
    (ha : cIsSpace a = false) (hb : cIsSpace b = false) :
    trimChars (a :: (l ++ [b])) = a :: (l ++ [b]) := by
  unfold trimChars
  rw [List.dropWhile_cons, ha, if_neg Bool.false_ne_true]
  rw [show (a :: (l ++ [b])).reverse = b :: (l.reverse ++ [a]) from by simp]
  rw [List.dropWhile_cons, hb, if_neg Bool.false_ne_true]
  simp

/-- The node-level statement handler on any `print(inner)` string: never a
method call, never a `new`, always the `print` branch; a quote-wrapped
argument is echoed literally, anything else is evaluated as an expression
and printed as `true`/`false`. -/
theorem execNodeStmt_print (fuel : Nat) (ctx : RunCtx) (inner : String) :
    execNodeStmt fuel ("print(" ++ inner ++ ")") ctx =
      (if inner.length ≥ 2 ∧ inner.data.head? = some '"' ∧
          inner.data.getLast? = some '"' then
        some { ctx with out := ctx.out ++
          [substrM inner 1 (inner.length - 2)] }
      else
        (evalExpressionString inner ctx.vars ctx.boolVars
          ctx.prog.objects).map
          (fun (v : Int) => { ctx with out := ctx.out ++
            [if v ≠ 0 then "true" else "false"] })) := by
  have htrim : trimM ("print(" ++ inner ++ ")") = "print(" ++ inner ++ ")" := by
    show String.mk (trimChars ('p' :: ((['r','i','n','t','('] ++ inner.data)
      ++ [')']))) = "print(" ++ inner ++ ")"
    rw [trimChars_nospace_ends 'p' ')' (['r','i','n','t','('] ++ inner.data)
      (by decide) (by decide)]
    rfl
  have hdot : findCharIdx '.' ("print(" ++ inner ++ ")") =
      (findIdxM (fun x => x = '.') (inner.data ++ [')'])).map (· + 6) := by
    show findIdxM (fun x => x = '.')
      (['p','r','i','n','t','('] ++ (inner.data ++ [')'])) = _
    rw [findIdxM_append_none (fun x => x = '.') ['p','r','i','n','t','(']
      (inner.data ++ [')']) (by decide)]
    rfl
  have hlen : ("print(" ++ inner ++ ")").data.length = 7 + inner.length := by
    show ((['p','r','i','n','t','('] ++ inner.data) ++ [')']).length =
      7 + inner.length
    have e : inner.length = inner.data.length := rfl
    simp [List.length_append]
    omega
  have hrf : rfindCharIdx ')' ("print(" ++ inner ++ ")") =
      some (6 + inner.length) := by
    unfold rfindCharIdx
    have hrev : ("print(" ++ inner ++ ")").data.reverse =
        ')' :: (['p','r','i','n','t','('] ++ inner.data).reverse := by
      show ((['p','r','i','n','t','('] ++ inner.data) ++ [')']).reverse = _
      rw [List.reverse_append]
      rfl
    rw [hrev, findIdxM_cons_pos _ _ _ (by decide)]
    show some (("print(" ++ inner ++ ")").data.length - 1 - 0) =
      some (6 + inner.length)
    rw [hlen]
    congr 1
    omega
  have hsub : substrM ("print(" ++ inner ++ ")") (5 + 1)
      (6 + inner.length - 5 - 1) = inner := by
    have harith : 6 + inner.length - 5 - 1 = inner.length := by omega
    rw [harith]
    show String.mk ((inner.data ++ [')']).take inner.length) = inner
    rw [show inner.length = inner.data.length from rfl, List.take_left]
  have hcall : ∀ (X : Option Nat),
      (X.map (· + 6)).elim false (fun dp =>
        (findCharIdx '(' ("print(" ++ inner ++ ")")).elim false
          (fun pp => decide (pp > dp))) = false := by
    intro X
    cases X with
    | none => rfl
    | some d =>
      show decide ((5 : Nat) > d + 6) = false
      exact decide_eq_false (by omega)
  have hnew : startsWithM "new " ("print(" ++ inner ++ ")") = false := rfl
  have hpr : startsWithM "print(" ("print(" ++ inner ++ ")") = true := by
    show ("print(".data.isPrefixOf
      (("print(".data ++ inner.data) ++ [')'])) = true
    rw [List.isPrefixOf_iff_prefix]
    exact (List.prefix_append _ _).trans (List.prefix_append _ _)
  simp only [execNodeStmt]
  rw [htrim]
  rw [hdot]
  rw [hcall (findIdxM (fun x => x = '.') (inner.data ++ [')']))]
  rw [if_neg Bool.false_ne_true]
  rw [hnew, if_neg Bool.false_ne_true]
  rw [hpr, if_pos rfl]
  rw [show findCharIdx '(' ("print(" ++ inner ++ ")") = some 5 from rfl]
  rw [Option.elim_some]
  rw [hrf, Option.elim_some]
  rw [if_pos (by omega : 6 + inner.length > 5)]
  rw [hsub]

/-- C9 counterexample: the raw statement `print(2+3)` does **not** write
the evaluated value `5`: the node-level handler prints the C++ expression
`val ? "true" : "false"`, so the output line is `true`. -/
theorem c9_counterexample_print_value :
    execNodeStmt 1 "print(2+3)" ⟨{}, [], [], "p", []⟩ =
      some ⟨{}, [], [], "p", ["true"]⟩ ∧
    ¬ execNodeStmt 1 "print(2+3)" ⟨{}, [], [], "p", []⟩ =
      some ⟨{}, [], [], "p", ["5"]⟩ := by
  decide

/-- C9 (amended): a raw-statement action `print(...)` reaches the
node-level handler through the action loop (1); `print("text")` appends
the literal text to the output (2); `print(expr)` for a non-quote-wrapped
`expr` evaluates it against the current variables and objects and appends
the **truthiness rendering** `true`/`false` of the result — not the
value itself (3). -/
theorem c9_print_literal_text_and_truthiness :
    (∀ (fuel : Nat) (s : String) (rest : List Action) (ctx : RunCtx),
      runNodeActions fuel (Action.stmt s :: rest) ctx =
        (execNodeStmt fuel s ctx).bind
          (fun ctx' => runNodeActions fuel rest ctx')) ∧
    (∀ (fuel : Nat) (ctx : RunCtx) (txt : String),
      execNodeStmt fuel ("print(" ++ ("\"" ++ txt ++ "\"") ++ ")") ctx =
        some { ctx with out := ctx.out ++ [txt] }) ∧
    (∀ (fuel : Nat) (ctx : RunCtx) (inner : String) (v : Int),
      ¬ (inner.length ≥ 2 ∧ inner.data.head? = some '"' ∧
          inner.data.getLast? = some '"') →
      evalExpressionString inner ctx.vars ctx.boolVars ctx.prog.objects =
        some v →
      execNodeStmt fuel ("print(" ++ inner ++ ")") ctx =
        some { ctx with out := ctx.out ++
          [if v ≠ 0 then "true" else "false"] }) := by
  refine ⟨?_, ?_, ?_⟩
  · intro fuel s rest ctx
    rw [runNodeActions]
  · intro fuel ctx txt
    rw [execNodeStmt_print]
    have hlen2 : ("\"" ++ txt ++ "\"").length = txt.data.length + 2 := by
      show (('"' :: txt.data) ++ ['"']).length = txt.data.length + 2
      simp
    rw [if_pos ?hq]
    case hq =>
      refine ⟨by omega, rfl, ?_⟩
      show (('"' :: txt.data) ++ ['"']).getLast? = some '"'
      exact List.getLast?_concat _
    have hsubq : substrM ("\"" ++ txt ++ "\"") 1
        (("\"" ++ txt ++ "\"").length - 2) = txt := by
      rw [hlen2]
      show String.mk ((txt.data ++ ['"']).take (txt.data.length + 2 - 2)) = txt
      rw [show txt.data.length + 2 - 2 = txt.data.length from by omega,
        List.take_left]
    rw [hsubq]
  · intro fuel ctx inner v hq hev
    rw [execNodeStmt_print, if_neg hq, hev]
    rfl

/-- Closed instance of `c9_print_literal_text_and_truthiness`:
`print("hi")` in an action list outputs the literal `hi`; `print(1+1)`
outputs `true` (value 2 is nonzero), not `2`. -/
theorem c9_print_literal_text_and_truthiness_witness :
    runNodeActions 1 [Action.stmt ("print(" ++ ("\"" ++ "hi" ++ "\"") ++ ")")]
        ⟨{}, [], [], "p", []⟩ =
      some (⟨{}, [], [], "p", ["hi"]⟩, NodeExit.fell) ∧
    execNodeStmt 1 ("print(" ++ "1+1" ++ ")") ⟨{}, [], [], "p", []⟩ =
      some ⟨{}, [], [], "p", ["true"]⟩ := by
  have h := c9_print_literal_text_and_truthiness
  constructor
  · rw [h.1 1 ("print(" ++ ("\"" ++ "hi" ++ "\"") ++ ")") []
      ⟨{}, [], [], "p", []⟩]
    rw [h.2.1 1 ⟨{}, [], [], "p", []⟩ "hi"]
    decide
  · rw [h.2.2 1 ⟨{}, [], [], "p", []⟩ "1+1" 2 (by decide) (by decide)]
    decide

end Crtz
